import Mathlib

/-!
# A shallow embedding of the split-Mongo versioned course store

This development embeds the persistence/versioning engine of
`common/lib/xmodule/xmodule/modulestore/split_mongo/split.py` (class
`SplitMongoModuleStore`) in Lean 4 and proves properties of it.

Modelling conventions:
* Mongo `ObjectId`s (structure ids, definition ids) are natural numbers.  The
  store state carries a counter `nextId`; `ObjectId()` allocation returns the
  counter and bumps it, so fresh ids are distinct from all previously
  allocated ones (expressed by an explicit freshness hypothesis where needed).
* `datetime.datetime.now(UTC)` is a tick counter `now` carried in the state.
* Python dictionaries keyed by strings become association lists
  `List (String × α)`; key sets of real dictionaries are duplicate-free, which
  appears as explicit `Nodup` hypotheses where a proof needs it.
* Python `set`s become lists; properties about them are stated via membership.
  Where Python iterates a set in unspecified hash order, the model iterates in
  a fixed (insertion) order; no theorem below depends on a particular order.
* Exceptions become an error sum `SplitError`; a raised exception aborts the
  operation.  In the source every operation performs its document writes at
  the end (definitions, then structures, then index), so an operation that
  raises at a modelled point has written nothing, which the `Except` result
  type reflects.
* Uninterpreted crash points of the Python code (a `KeyError`/`TypeError`
  from subscripting a missing key or `None`) are modelled as `SplitError.keyError`.
* Recursions of the source that walk the block graph through `children`
  edges can diverge on (unenforced) cyclic graphs; they take an explicit
  fuel argument and return `none` when the fuel runs out.
-/

namespace Split

/-- A field value stored in a `fields` dictionary: a string, a number, or a
list of block ids (the representation of the `children` field). -/
inductive FVal where
  | str : String → FVal
  | num : Nat → FVal
  | ids : List String → FVal
deriving DecidableEq, Repr

/-- A `fields` dictionary: field name to value. -/
abbrev Fields := List (String × FVal)

/-- First-match association-list lookup (Python dict subscript / `.get`). -/
def alookup {κ α : Type} [DecidableEq κ] (l : List (κ × α)) (k : κ) : Option α :=
  (l.find? (fun p => p.1 = k)).map Prod.snd

/-- Association-list update: replace the first binding of `k`, or append a new
binding (Python `d[k] = v`). -/
def aset {κ α : Type} [DecidableEq κ] : List (κ × α) → κ → α → List (κ × α)
  | [], k, v => [(k, v)]
  | (a, b) :: t, k, v => if a = k then (k, v) :: t else (a, b) :: aset t k v

/-- Association-list deletion of the first binding (Python `del d[k]`; real
dictionaries hold each key once). -/
def adel {κ α : Type} [DecidableEq κ] : List (κ × α) → κ → List (κ × α)
  | [], _ => []
  | (a, b) :: t, k => if a = k then t else (a, b) :: adel t k

/-- Membership of a key (Python `k in d`). -/
def hasKey {κ α : Type} [DecidableEq κ] (l : List (κ × α)) (k : κ) : Bool :=
  (alookup l k).isSome

/-- Modelled from the spec: the key encoder (`LocMapperStore.encode_key_for_mongo`,
outside this repository) escapes characters illegal in Mongo keys and is
invertible.  For ids free of such characters it is the identity, which is how
it is modelled here. -/
def encode_key_for_mongo (s : String) : String := s

/-- Modelled from the spec: inverse of `encode_key_for_mongo`
(`LocMapperStore.decode_key_from_mongo`, outside this repository). -/
def decode_key_from_mongo (s : String) : String := s

/-- `edit_info` of a block inside a structure. -/
structure EditInfo where
  edited_on : Nat
  edited_by : Nat
  previous_version : Option Nat
  update_version : Nat
deriving DecidableEq, Repr

/-- One block entry of a structure (`structure['blocks'][block_id]`). -/
structure BlockEntry where
  category : String
  definition : Nat
  fields : Fields
  edit_info : EditInfo
deriving DecidableEq, Repr

/-- The map `structure['blocks']` (keys are encoded block ids). -/
abbrev BlocksMap := List (String × BlockEntry)

/-- A structure document: one immutable snapshot of the block graph. -/
structure Structure where
  id : Nat
  root : String
  previous_version : Option Nat
  original_version : Nat
  edited_by : Nat
  edited_on : Nat
  blocks : BlocksMap
deriving DecidableEq, Repr

/-- `edit_info` of a definition document. -/
structure DefEditInfo where
  edited_by : Nat
  edited_on : Nat
  previous_version : Option Nat
  original_version : Nat
deriving DecidableEq, Repr

/-- A definition document: revisioned content payload. -/
structure Definition where
  id : Nat
  category : String
  fields : Fields
  edit_info : DefEditInfo
deriving DecidableEq, Repr

/-- A course-index document.  Branch names are `Option String` keys because
the source subscripts `versions` directly with a locator's possibly-absent
branch. -/
structure CourseIndex where
  id : String
  org : String
  prettyid : String
  edited_by : Nat
  edited_on : Nat
  versions : List (Option String × Nat)
deriving DecidableEq, Repr

/-- Branch-head lookup in an index's `versions` dictionary. -/
def versionsLookup (idx : CourseIndex) (branch : Option String) : Option Nat :=
  alookup idx.versions branch

/-- The whole document store plus the id/clock source. -/
structure DB where
  indexes : List CourseIndex
  structures : List Structure
  definitions : List Definition
  nextId : Nat
  now : Nat
deriving DecidableEq, Repr

/-- `ObjectId()`: allocate a fresh id. -/
def freshId (db : DB) : Nat × DB :=
  (db.nextId, { db with nextId := db.nextId + 1 })

/-- `get_course_index(package_id)`. -/
def get_course_index (db : DB) (packageId : String) : Option CourseIndex :=
  db.indexes.find? (fun i => i.id = packageId)

/-- `get_structure(id)`. -/
def get_structure (db : DB) (sid : Nat) : Option Structure :=
  db.structures.find? (fun s => s.id = sid)

/-- `get_definition(id)`. -/
def get_definition (db : DB) (did : Nat) : Option Definition :=
  db.definitions.find? (fun d => d.id = did)

/-- `insert_structure`. -/
def insert_structure (db : DB) (s : Structure) : DB :=
  { db with structures := db.structures ++ [s] }

/-- `update_structure`: replace the document with the same `_id`. -/
def update_structure (db : DB) (s : Structure) : DB :=
  { db with structures := db.structures.map (fun t => if t.id = s.id then s else t) }

/-- `insert_definition`. -/
def insert_definition (db : DB) (d : Definition) : DB :=
  { db with definitions := db.definitions ++ [d] }

/-- `insert_course_index`. -/
def insert_course_index (db : DB) (i : CourseIndex) : DB :=
  { db with indexes := db.indexes ++ [i] }

/-- `update_course_index`: replace the document with the same `_id`. -/
def update_course_index (db : DB) (i : CourseIndex) : DB :=
  { db with indexes := db.indexes.map (fun j => if j.id = i.id then i else j) }

/-- A `CourseLocator`: any of package id, branch, version guid. -/
structure CourseLocator where
  package_id : Option String
  branch : Option String
  version_guid : Option Nat
deriving DecidableEq, Repr

/-- Modelled from the spec: `CourseLocator.is_fully_specified` (the locator
class lives outside this repository): at least one of `package_id` or
`version_guid` is present. -/
def CourseLocator.is_fully_specified (loc : CourseLocator) : Bool :=
  loc.package_id.isSome || loc.version_guid.isSome

/-- A `BlockUsageLocator`: a course locator plus a block id. -/
structure BlockUsageLocator where
  course : CourseLocator
  block_id : String
deriving DecidableEq, Repr

/-- The error kinds surfaced by the engine.  `keyError` stands for an
uncaught `KeyError`/`TypeError` crash of the Python code. -/
inductive SplitError where
  | insufficientSpecification
  | itemNotFound
  | versionConflict (head : Nat)
  | duplicateItem (blockId : String)
  | valueError
  | keyError
deriving DecidableEq, Repr

/-- `_lookup_course`: resolve a course locator to its structure document.
When both `package_id` and `branch` are given the branch head is read from
the index; a `version_guid` that disagrees with the head raises
`VersionConflictError` carrying the head.  Returns the structure (the
envelope's `package_id`/`branch` merely echo the locator). -/
def lookup_course (db : DB) (loc : CourseLocator) : Except SplitError Structure := do
  if ¬ loc.is_fully_specified then
    throw SplitError.insufficientSpecification
  match loc.package_id, loc.branch with
  | some pid, some _ =>
    match get_course_index db pid with
    | none => throw SplitError.itemNotFound
    | some index =>
      match versionsLookup index loc.branch with
      | none => throw SplitError.itemNotFound
      | some versionGuid =>
        match loc.version_guid with
        | some lvg =>
          if versionGuid ≠ lvg then throw (SplitError.versionConflict versionGuid)
          else
            match get_structure db versionGuid with
            | some entry => pure entry
            | none => throw SplitError.keyError
        | none =>
          match get_structure db versionGuid with
          | some entry => pure entry
          | none => throw SplitError.keyError
  | _, _ =>
    match loc.version_guid with
    | some vg =>
      match get_structure db vg with
      | some entry => pure entry
      | none => throw SplitError.keyError
    | none => throw SplitError.keyError

/-- `_get_index_if_valid(locator, force, continue_version)`: return the index
entry when the locator plausibly identifies the draft of a course; raise
`VersionConflictError` when the locator's `version_guid` is not the branch
head and `force` is not set. -/
def get_index_if_valid (db : DB) (loc : CourseLocator) (force continue_version : Bool) :
    Except SplitError (Option CourseIndex) :=
  match loc.package_id, loc.branch with
  | some pid, some _ =>
    let indexEntry := get_course_index db pid
    match loc.version_guid with
    | none =>
      -- `is_head` short-circuits without subscripting the index
      pure indexEntry
    | some vg =>
      match indexEntry with
      | none => throw SplitError.keyError
      | some idx =>
        match versionsLookup idx loc.branch with
        | none => throw SplitError.keyError
        | some head =>
          if head = vg ∨ (force ∧ ¬ continue_version) then pure (some idx)
          else throw (SplitError.versionConflict head)
  | _, _ =>
    if continue_version then throw SplitError.insufficientSpecification
    else pure none

/-- `_version_structure(structure, user_id)`: copy-on-write a structure with a
fresh id, recording provenance.  The copy is not yet inserted. -/
def version_structure (db : DB) (s : Structure) (userId : Nat) : Structure × DB :=
  let (newId, db) := freshId db
  ({ s with id := newId
          , previous_version := some s.id
          , edited_by := userId
          , edited_on := db.now }, db)

/-- `_update_head(index_entry, branch, new_id)`. -/
def update_head (db : DB) (indexEntry : CourseIndex) (branch : Option String) (newId : Nat) : DB :=
  update_course_index db { indexEntry with versions := aset indexEntry.versions branch newId }

/-- `_new_block(user_id, category, block_fields, definition_id, new_id)`. -/
def new_block (userId : Nat) (now : Nat) (category : String) (blockFields : Fields)
    (definitionId : Nat) (newId : Nat) : BlockEntry :=
  { category := category
  , definition := definitionId
  , fields := blockFields
  , edit_info :=
    { edited_on := now
    , edited_by := userId
    , previous_version := none
    , update_version := newId } }

/-- `_get_block_from_structure(structure, block_id)`. -/
def get_block_from_structure (s : Structure) (blockId : String) : Option BlockEntry :=
  alookup s.blocks (encode_key_for_mongo blockId)

/-- `_update_block_in_structure(structure, block_id, content)`. -/
def update_block_in_structure (s : Structure) (blockId : String) (content : BlockEntry) :
    Structure :=
  { s with blocks := aset s.blocks (encode_key_for_mongo blockId) content }

/-- `_get_parents_from_structure(block_id, structure)` restricted to a blocks
map: all (encoded) keys whose `children` field contains `block_id`. -/
def get_parents_from_blocks (blockId : String) (blocks : BlocksMap) : List String :=
  (blocks.filter (fun p =>
    (match alookup p.2.fields "children" with
     | some (FVal.ids cs) => cs
     | _ => []).contains blockId)).map Prod.fst

/-- `_get_parents_from_structure(block_id, structure)`. -/
def get_parents_from_structure (blockId : String) (s : Structure) : List String :=
  get_parents_from_blocks blockId s.blocks

/-- The `children` list of a block's fields, defaulting to `[]`
(`fields.get('children', [])`). -/
def childrenOrEmpty (fields : Fields) : List String :=
  match alookup fields "children" with
  | some (FVal.ids cs) => cs
  | _ => []

/-- Decimal digits, most significant first, by fuelled structural recursion
(so that terms compute definitionally); `natDigits` supplies enough fuel. -/
def natDigitsAux : Nat → Nat → List Char
  | 0, _ => []
  | fuel + 1, n =>
    if n < 10 then [Char.ofNat (48 + n)]
    else natDigitsAux fuel (n / 10) ++ [Char.ofNat (48 + n % 10)]

/-- Decimal digits of a natural number, most significant first (`str(n)`). -/
def natDigits (n : Nat) : List Char := natDigitsAux (n + 1) n

/-- `str(n)` for a natural number. -/
def natToStr (n : Nat) : String := String.mk (natDigits n)

/-- `_filter_special_fields(fields)`: drop the derived `location` and
`category` fields before persisting. -/
def filter_special_fields (fields : Fields) : Fields :=
  (fields.filter (fun p => p.1 ≠ "location")).filter (fun p => p.1 ≠ "category")

/-- A field scope, as reported by the external block-class capability. -/
inductive Scope where
  | content
  | settings
  | children
  | other
deriving DecidableEq, Repr

/-- The outcome of `_partition_fields_by_scope`, restricted to the three
scopes the engine reads (fields of any other scope are never persisted). -/
structure PartitionedFields where
  content : Fields
  settings : Fields
  children : Fields
deriving DecidableEq, Repr

/-- Modelled from the spec: `_partition_fields_by_scope(category, fields)`
consults the external block-class registry (outside this repository) for the
scope of each field; the registry is abstracted as the `scopeOf` argument.
`fields = none` (Python `None`) yields an empty partition. -/
def partition_fields_by_scope (scopeOf : String → Scope) (fields : Option Fields) :
    PartitionedFields :=
  match fields with
  | none => ⟨[], [], []⟩
  | some fs =>
    fs.foldl (fun acc p =>
      match scopeOf p.1 with
      | Scope.content => { acc with content := aset acc.content p.1 p.2 }
      | Scope.settings => { acc with settings := aset acc.settings p.1 p.2 }
      | Scope.children => { acc with children := aset acc.children p.1 p.2 }
      | Scope.other => acc) ⟨[], [], []⟩

/-- A `DefinitionLocator`'s payload: either a fresh `LocalId` placeholder or
the id of a persisted definition. -/
inductive DefLocator where
  | localId
  | defId (n : Nat)
deriving DecidableEq, Repr

/-- `create_definition_from_data(new_def_data, category, user_id)`. -/
def create_definition_from_data (db : DB) (newDefData : Fields) (category : String)
    (userId : Nat) : Nat × DB :=
  let defData := filter_special_fields newDefData
  let (newId, db) := freshId db
  let document : Definition :=
    { id := newId
    , category := category
    , fields := defData
    , edit_info :=
      { edited_by := userId
      , edited_on := db.now
      , previous_version := none
      , original_version := newId } }
  (newId, insert_definition db document)

/-- The `needs_saved` closure of `update_definition_from_data`: true iff some
new field is absent from or differs in the old fields, or some old field is
absent from the new ones.  (The Python function returns `True` or falls off
the end returning `None`, which is falsy.) -/
def needs_saved (newDefData : Fields) (oldFields : Fields) : Bool :=
  newDefData.any (fun p =>
    match alookup oldFields p.1 with
    | none => true
    | some v => v ≠ p.2) ||
  oldFields.any (fun p => ¬ hasKey newDefData p.1)

/-- `update_definition_from_data(definition_locator, new_def_data, user_id)`:
returns `(new_definition_id, changed?)`.  A `LocalId` locator finds no
persisted definition, hence `ItemNotFoundError`. -/
def update_definition_from_data (db : DB) (defLoc : DefLocator) (newDefData : Fields)
    (userId : Nat) : Except SplitError (DB × Nat × Bool) := do
  let newDefData := filter_special_fields newDefData
  match defLoc with
  | DefLocator.localId => throw SplitError.itemNotFound
  | DefLocator.defId did =>
    match get_definition db did with
    | none => throw SplitError.itemNotFound
    | some oldDefinition =>
      if needs_saved newDefData oldDefinition.fields then
        let (newId, db) := freshId db
        let newDefinition : Definition :=
          { oldDefinition with
              id := newId
            , fields := newDefData
            , edit_info :=
              { oldDefinition.edit_info with
                  edited_by := userId
                , edited_on := db.now
                , previous_version := some did } }
        pure (insert_definition db newDefinition, newId, true)
      else
        pure (db, did, false)

/-- The serial loop of `_generate_block_id`: smallest `serial ≥ 1` such that
`category + str(serial)` is not yet a key (fuelled; `blocks.length + 1`
candidates always suffice). -/
def generate_block_id_from (blocks : BlocksMap) (category : String) :
    Nat → Nat → String
  | 0, serial => category ++ natToStr serial
  | fuel + 1, serial =>
    if hasKey blocks (category ++ natToStr serial) then
      generate_block_id_from blocks category fuel (serial + 1)
    else category ++ natToStr serial

/-- `_generate_block_id(course_blocks, category)`. -/
def generate_block_id (blocks : BlocksMap) (category : String) : String :=
  generate_block_id_from blocks category (blocks.length + 1) 1

/-- `create_item`.  The `course_or_parent_locator` argument is split into the
course locator and the optional parent block id (a `BlockUsageLocator` is a
course locator plus a block id).  Returns the new structure id and the new
block id; the trailing `get_item` read-back of the source is not modelled.
The external scope registry is the `scopeOf` argument. -/
def create_item (db : DB) (scopeOf : String → Scope) (loc : CourseLocator)
    (parentBlockId : Option String) (category : String) (userId : Nat)
    (blockId : Option String) (definitionLocator : Option DefLocator)
    (fields : Option Fields) (force continue_version : Bool) :
    Except SplitError (DB × Nat × String) := do
  let indexEntry ← get_index_if_valid db loc force continue_version
  let structureDoc ← lookup_course db loc
  let partitionedFields := partition_fields_by_scope scopeOf fields
  let newDefData := partitionedFields.content
  -- persist the definition if persisted != passed
  let (definitionId, db) ←
    match definitionLocator with
    | none => pure (create_definition_from_data db newDefData category userId)
    | some DefLocator.localId => pure (create_definition_from_data db newDefData category userId)
    | some (DefLocator.defId did) => do
      let (db, newDid, _) ← update_definition_from_data db (DefLocator.defId did) newDefData userId
      pure (newDid, db)
  -- copy the structure and modify the new one
  let (newStructure, db) :=
    if continue_version then (structureDoc, db)
    else version_structure db structureDoc userId
  let newId := newStructure.id
  -- generate usage id
  let newBlockId ←
    match blockId with
    | some b =>
      if hasKey newStructure.blocks (encode_key_for_mongo b) then
        throw (SplitError.duplicateItem b)
      else pure b
    | none => pure (generate_block_id newStructure.blocks category)
  let blockFields :=
    partitionedFields.children.foldl (fun acc p => aset acc p.1 p.2) partitionedFields.settings
  let newStructure := update_block_in_structure newStructure newBlockId
    { category := category
    , definition := definitionId
    , fields := blockFields
    , edit_info :=
      { edited_on := db.now
      , edited_by := userId
      , previous_version := none
      , update_version := newId } }
  -- if given parent, add new block as child and update parent's version
  let newStructure ←
    match parentBlockId with
    | none => pure newStructure
    | some p =>
      let encodedBlockId := encode_key_for_mongo p
      match alookup newStructure.blocks encodedBlockId with
      | none => throw SplitError.keyError
      | some parent => do
        let cs ←
          match alookup parent.fields "children" with
          | some (FVal.ids cs) => pure cs
          | none => pure []
          | some _ => throw SplitError.keyError
        let parent := { parent with fields := aset parent.fields "children" (FVal.ids (cs ++ [newBlockId])) }
        let parent :=
          if ¬ continue_version ∨ parent.edit_info.update_version ≠ structureDoc.id then
            { parent with edit_info :=
              { edited_on := db.now
              , edited_by := userId
              , previous_version := some parent.edit_info.update_version
              , update_version := newId } }
          else parent
        pure { newStructure with blocks := aset newStructure.blocks encodedBlockId parent }
  let db :=
    if continue_version then update_structure db newStructure
    else insert_structure db newStructure
  -- update the index entry if appropriate
  let db :=
    match indexEntry with
    | some idx => if ¬ continue_version then update_head db idx loc.branch newId else db
    | none => db
  pure (db, newId, newBlockId)

/-- `_compare_settings(settings, original_fields)`: true iff the settings are
not equal, key for key and value for value, to the original fields with the
`children` key set aside.  (The Python function returns `True` or falls off
the end returning `None`, which is falsy.) -/
def compare_settings (settings originalFields : Fields) : Bool :=
  let originalKeys := (originalFields.map Prod.fst).erase "children"
  if settings.length ≠ originalKeys.length then true
  else originalKeys.any (fun key =>
    ¬ hasKey settings key || alookup originalFields key ≠ alookup settings key)

/-- The slice of an XBlock descriptor that `update_item` reads.  The
`get_explicitly_set_fields_by_scope` calls of the source are modelled as the
two field dictionaries carried here. -/
structure Descriptor where
  location : BlockUsageLocator
  definition_locator : DefLocator
  content_fields : Fields
  settings_fields : Fields
  has_children : Bool
  children : List String
deriving DecidableEq, Repr

/-- What `update_item` hands back: the unchanged input descriptor, or a fresh
course version holding the saved block. -/
inductive UpdateResult where
  | unchanged
  | newVersion (newId : Nat)
deriving DecidableEq, Repr

/-- `update_item(descriptor, user_id, force)`: save the descriptor's fields,
creating a new course version only when a change is detected in the
definition content, the children list, or the settings. -/
def update_item (db : DB) (descriptor : Descriptor) (userId : Nat) (force : Bool) :
    Except SplitError (DB × UpdateResult) := do
  let originalStructure ← lookup_course db descriptor.location.course
  let indexEntry ← get_index_if_valid db descriptor.location.course force false
  let (db, newDefId, defUpdated) ←
    update_definition_from_data db descriptor.definition_locator descriptor.content_fields userId
  let originalEntry ←
    match get_block_from_structure originalStructure descriptor.location.block_id with
    | none => throw SplitError.keyError
    | some e => pure e
  -- check children
  let childrenDiffer ←
    if descriptor.has_children then
      match alookup originalEntry.fields "children" with
      | none => throw SplitError.keyError
      | some v => pure (decide (v ≠ FVal.ids descriptor.children))
    else pure false
  let isUpdated := defUpdated || childrenDiffer
  -- check metadata
  let isUpdated :=
    if isUpdated then true
    else compare_settings descriptor.settings_fields originalEntry.fields
  if isUpdated then
    let (newStructure, db) := version_structure db originalStructure userId
    match get_block_from_structure newStructure descriptor.location.block_id with
    | none => throw SplitError.keyError
    | some blockData =>
      let blockData := { blockData with definition := newDefId
                                      , fields := descriptor.settings_fields }
      let blockData :=
        if descriptor.has_children then
          { blockData with fields := aset blockData.fields "children" (FVal.ids descriptor.children) }
        else blockData
      let newId := newStructure.id
      let blockData := { blockData with edit_info :=
        { edited_on := db.now
        , edited_by := userId
        , previous_version := some blockData.edit_info.update_version
        , update_version := newId } }
      let newStructure := update_block_in_structure newStructure descriptor.location.block_id blockData
      let db := insert_structure db newStructure
      let db :=
        match indexEntry with
        | some idx => update_head db idx descriptor.location.course.branch newId
        | none => db
      pure (db, UpdateResult.newVersion newId)
  else
    -- nothing changed, just return the one sent in
    pure (db, UpdateResult.unchanged)

/-- The `remove_subtree` closure of `delete_item`: delete the subtree rooted
at a block id (fuelled; `none` models fuel exhaustion, which only cyclic
graphs reach, or a `KeyError` on a dangling child reference). -/
def remove_subtree : Nat → BlocksMap → String → Option BlocksMap
  | 0, _, _ => none
  | fuel + 1, blocks, blockId =>
    let encodedBlockId := encode_key_for_mongo blockId
    match alookup blocks encodedBlockId with
    | none => none
    | some entry =>
      match (childrenOrEmpty entry.fields).foldl (fun acc child =>
          match acc with
          | none => none
          | some blocks => remove_subtree fuel blocks child) (some blocks) with
      | none => none
      | some blocks =>
        if hasKey blocks encodedBlockId then some (adel blocks encodedBlockId) else none

/-- `delete_item(usage_locator, user_id, delete_children, force)`: delete the
block (or its whole subtree) from a new version of the course structure.
Returns the locator for the new version. -/
def delete_item (db : DB) (loc : BlockUsageLocator) (userId : Nat)
    (delete_children : Bool) (force : Bool) (fuel : Nat) :
    Except SplitError (DB × CourseLocator) := do
  let originalStructure ← lookup_course db loc.course
  if originalStructure.root = loc.block_id then throw SplitError.valueError
  let indexEntry ← get_index_if_valid db loc.course force false
  let (newStructure, db) := version_structure db originalStructure userId
  let newId := newStructure.id
  -- get_parent_locations re-resolves the same course and decodes the keys
  let parents := (get_parents_from_structure loc.block_id originalStructure).map decode_key_from_mongo
  let newBlocks ← parents.foldlM (fun (blocks : BlocksMap) parent => do
      let encodedBlockId := encode_key_for_mongo parent
      match alookup blocks encodedBlockId with
      | none => throw SplitError.keyError
      | some parentBlock => do
        let cs ←
          match alookup parentBlock.fields "children" with
          | some (FVal.ids cs) => pure cs
          | _ => throw SplitError.keyError
        -- list.remove raises ValueError when the element is absent
        if ¬ cs.contains loc.block_id then throw SplitError.valueError
        let parentBlock := { parentBlock with
          fields := aset parentBlock.fields "children" (FVal.ids (cs.erase loc.block_id))
        , edit_info :=
          { edited_on := db.now
          , edited_by := userId
          , previous_version := some parentBlock.edit_info.update_version
          , update_version := newId } }
        pure (aset blocks encodedBlockId parentBlock)) newStructure.blocks
  let newBlocks ←
    if delete_children then
      match remove_subtree fuel newBlocks loc.block_id with
      | none => throw SplitError.keyError
      | some blocks => pure blocks
    else
      if hasKey newBlocks (encode_key_for_mongo loc.block_id) then
        pure (adel newBlocks (encode_key_for_mongo loc.block_id))
      else throw SplitError.keyError
  let newStructure := { newStructure with blocks := newBlocks }
  let db := insert_structure db newStructure
  match indexEntry with
  | some idx =>
    let db := update_head db idx loc.course.branch newId
    pure (db, { package_id := loc.course.package_id
              , branch := loc.course.branch
              , version_guid := some newId })
  | none =>
    pure (db, { package_id := none, branch := none, version_guid := some newId })

/-- `get_orphans(package_id, branch)`: block ids of the branch head that are
not the root, not referenced by any `children` list, and not of a category
the external registry tags as detached (the registry is the
`detachedCategories` argument). -/
def get_orphans (db : DB) (packageId branch : String) (detachedCategories : List String) :
    Except SplitError (List String) := do
  let course ← lookup_course db
    { package_id := some packageId, branch := some branch, version_guid := none }
  let items := course.blocks.map (fun p => decode_key_from_mongo p.1)
  -- set.remove raises KeyError when the root is not among the keys
  if ¬ items.contains course.root then throw SplitError.keyError
  let items := items.erase course.root
  let items := course.blocks.foldl (fun (its : List String) p =>
      let its := its.filter (fun x => ¬ (childrenOrEmpty p.2.fields).contains x)
      if detachedCategories.contains p.2.category then its.erase (decode_key_from_mongo p.1)
      else its) items
  pure items

/-- The adjacency map of a `VersionTree` as `get_course_successors` builds
it: structure id to the ids appended for it. -/
structure VersionTreeModel where
  root : Nat
  tree : List (Nat × List Nat)
deriving DecidableEq, Repr

/-- `result.setdefault(k, []).append(v)`. -/
def setdefault_append (l : List (Nat × List Nat)) (k : Nat) (v : Nat) : List (Nat × List Nat) :=
  if (l.find? (fun p => p.1 = k)).isSome then
    l.map (fun p => if p.1 = k then (p.1, p.2 ++ [v]) else p)
  else l ++ [(k, [v])]

/-- `find_matching_structures({'previous_version': {'$in': ids}})`. -/
def find_structures_by_previous (db : DB) (prevIds : List Nat) : List Structure :=
  db.structures.filter (fun s =>
    match s.previous_version with
    | some p => prevIds.contains p
    | none => false)

/-- The `while depth < version_history_depth` loop of
`get_course_successors`.  The loop body appends
`CourseLocator(version_guid=struct['_id'])` where `struct` is the variable
leaked by the preceding Python 2 list comprehension, i.e. the LAST structure
of the current level — not `course_structure['_id']`.  The model reproduces
that leak via `getLast?`. -/
def successors_loop (db : DB) : Nat → List Structure → List (Nat × List Nat) →
    List (Nat × List Nat)
  | 0, _, result => result
  | _, [], result => result
  | k + 1, nextVersions, result =>
    let nextEntries := find_structures_by_previous db (nextVersions.map (fun s => s.id))
    match nextEntries.getLast? with
    | none => result
    | some lastStruct =>
      let result := nextEntries.foldl (fun r cs =>
        match cs.previous_version with
        | some p => setdefault_append r p lastStruct.id
        | none => r) result
      successors_loop db k nextEntries result

/-- `get_course_successors(course_locator, version_history_depth)`. -/
def get_course_successors (db : DB) (loc : CourseLocator) (versionHistoryDepth : Nat) :
    Except SplitError (Option VersionTreeModel) := do
  if versionHistoryDepth < 1 then pure none
  else do
    let versionGuid ←
      match loc.version_guid with
      | none => do
        let course ← lookup_course db loc
        pure course.id
      | some vg => pure vg
    let nextEntries := find_structures_by_previous db [versionGuid]
    let result := [(versionGuid, nextEntries.map (fun s => s.id))]
    let result := successors_loop db (versionHistoryDepth - 1) nextEntries result
    pure (some { root := versionGuid, tree := result })

/-- Substring containment on character lists (the unanchored `$regex`
search for a metacharacter-free pattern). -/
def containsSub (needle : List Char) : List Char → Bool
  | [] => needle.isEmpty
  | c :: rest => needle.isPrefixOf (c :: rest) || containsSub needle rest

/-- The numeric value of a decimal digit character. -/
def digitVal (c : Char) : Nat := c.toNat - 48

/-- `int()` of a digit string, most significant first. -/
def parseDigits (cs : List Char) : Nat := cs.foldl (fun acc c => acc * 10 + digitVal c) 0

/-- `re.search(id_root + r'(\d+)', entry)` over the model where `id_root`
holds no regex metacharacters: the leftmost occurrence of `root` followed by
at least one digit, returning the value of the maximal digit run after it
(group 1 is greedy).  (The source also guards on `serial.groups > 0`, which
compares a bound method with an int and is always true in Python 2.) -/
def find_serial (root : List Char) : List Char → Option Nat
  | [] => none
  | c :: rest =>
    if root.isPrefixOf (c :: rest) then
      match (c :: rest).drop root.length with
      | d :: ds =>
        if d.isDigit then some (parseDigits ((d :: ds).takeWhile Char.isDigit))
        else find_serial root rest
      | [] => find_serial root rest
    else find_serial root rest

/-- One step of the `max_found` loop of `_generate_package_id`. -/
def serial_fold_step (root : List Char) (m : Nat) (entry : CourseIndex) : Nat :=
  match find_serial root entry.id.data with
  | some value => if value > m then value else m
  | none => m

/-- `_generate_package_id(id_root)`.  The `{"$regex": id_root}` query is an
unanchored search; for a metacharacter-free `id_root` it selects the index
ids containing `id_root` as a substring, which is how it is modelled. -/
def generate_package_id (db : DB) (idRoot : String) : String :=
  let existingUses := db.indexes.filter (fun i => containsSub idRoot.data i.id.data)
  if existingUses.length > 0 then
    let maxFound := existingUses.foldl (serial_fold_step idRoot.data) 0
    idRoot ++ natToStr (maxFound + 1)
  else idRoot

/-- The package-id allocation and index insertion performed by
`create_course` (its structure/definition creation is orthogonal to the id
choice and is taken as the given `versionsDict`): `id_root` defaults to
`org`, and the generated id becomes the `_id` of the inserted index. -/
def create_course_index (db : DB) (org prettyid : String) (userId : Nat)
    (idRoot : Option String) (versionsDict : List (Option String × Nat)) : DB × String :=
  let idRootVal := idRoot.getD org
  let newId := generate_package_id db idRootVal
  (insert_course_index db
    { id := newId
    , org := org
    , prettyid := prettyid
    , edited_by := userId
    , edited_on := db.now
    , versions := versionsDict }, newId)

/-- `set.add`: append only when absent (Python sets never hold duplicates). -/
def setAdd (l : List String) (x : String) : List String :=
  if l.contains x then l else l ++ [x]

/-- `set.update`: fold the additions in. -/
def setUnion (a b : List String) : List String := b.foldl setAdd a

/-- `_sync_children(source_parent, destination_parent, new_child)`: reorder
the destination's children to the source's order keeping only those already
in the destination or equal to the new child; the destination children
absent from the source are returned as orphans. -/
def sync_children (sourceParent destinationParent : BlockEntry) (newChild : String) :
    Except SplitError (BlockEntry × List String) := do
  let destinationChildren ←
    match alookup destinationParent.fields "children" with
    | some (FVal.ids cs) => pure cs
    | _ => throw SplitError.keyError
  let sourceChildren ←
    match alookup sourceParent.fields "children" with
    | some (FVal.ids cs) => pure cs
    | _ => throw SplitError.keyError
  let orphans := destinationChildren.foldl (fun o child =>
    if sourceChildren.contains child then o else setAdd o child) []
  let destinationReordered := sourceChildren.foldl (fun acc child =>
    if child = newChild ∨ destinationChildren.contains child then acc ++ [child] else acc) []
  pure ({ destinationParent with
            fields := aset destinationParent.fields "children" (FVal.ids destinationReordered) },
        orphans)

/-- `_filter_blacklist(fields, blacklist)`: drop the blacklisted ids from the
`children` field (installing an empty list when the field was absent). -/
def filter_blacklist (fields : Fields) (blacklist : List String) : Fields :=
  aset fields "children"
    (FVal.ids ((childrenOrEmpty fields).filter (fun child => ¬ blacklist.contains child)))

/-- `_publish_subdag(user_id, block_id, source_blocks, destination_blocks,
blacklist)`: make the destination sub-dag rooted at `blockId` match the
source one, excluding the blacklist; returns the updated destination blocks
and the newly discovered orphans.  `none` models fuel exhaustion (reached
only through `children` cycles) or an uncaught `KeyError` of the source
(missing source block, or a missing strict `children` key in the
differing-version branch). -/
def publish_subdag (userId now : Nat) (sourceBlocks : BlocksMap) (blacklist : List String) :
    Nat → String → BlocksMap → Option (BlocksMap × List String)
  | 0, _, _ => none
  | fuel + 1, blockId, destinationBlocks =>
    let encodedBlockId := encode_key_for_mongo blockId
    match alookup sourceBlocks encodedBlockId with
    | none => none
    | some newBlock =>
      let step : Option (BlockEntry × List String) :=
        match alookup destinationBlocks encodedBlockId with
        | some destinationBlock =>
          if destinationBlock.edit_info.update_version ≠ newBlock.edit_info.update_version then
            match alookup newBlock.fields "children",
                  alookup destinationBlock.fields "children" with
            | some (FVal.ids sourceChildren), some (FVal.ids destChildren) =>
              let orphans := destChildren.foldl (fun o child =>
                if sourceChildren.contains child then o else setAdd o child) []
              let previousVersion := newBlock.edit_info.update_version
              some ({ newBlock with
                        fields := filter_blacklist newBlock.fields blacklist
                      , edit_info := { newBlock.edit_info with
                          previous_version := some previousVersion
                        , edited_by := userId } }, orphans)
            | _, _ => none
          else some (destinationBlock, [])
        | none =>
          some (new_block userId now newBlock.category
                  (filter_blacklist newBlock.fields blacklist)
                  newBlock.definition newBlock.edit_info.update_version, [])
      match step with
      | none => none
      | some (destinationBlock, orphans) =>
        match (childrenOrEmpty destinationBlock.fields).foldl (fun acc child =>
            match acc with
            | none => none
            | some (dblocks, orph) =>
              if blacklist.contains child then some (dblocks, orph)
              else
                match publish_subdag userId now sourceBlocks blacklist fuel child dblocks with
                | none => none
                | some (dblocks, o1) => some (dblocks, setUnion orph o1))
            (some (destinationBlocks, orphans)) with
        | none => none
        | some (destinationBlocks, orphans) =>
          some (aset destinationBlocks encodedBlockId destinationBlock, orphans)

/-- `_delete_if_true_orphan(orphan, structure)`: delete the orphan when it
has no parents; the recursive calls on its children happen while the orphan
itself is still in the map.  `none` models fuel exhaustion or the `KeyError`
raised when the orphan id is not a block. -/
def delete_if_true_orphan : Nat → String → BlocksMap → Option BlocksMap
  | 0, _, _ => none
  | fuel + 1, orphan, blocks =>
    if (get_parents_from_blocks orphan blocks).isEmpty then
      let encodedBlockId := encode_key_for_mongo orphan
      match alookup blocks encodedBlockId with
      | none => none
      | some entry =>
        match (childrenOrEmpty entry.fields).foldl (fun acc child =>
            match acc with
            | none => none
            | some blocks => delete_if_true_orphan fuel child blocks) (some blocks) with
        | none => none
        | some blocks =>
          if hasKey blocks encodedBlockId then some (adel blocks encodedBlockId) else none
    else some blocks

/-- The parent-reconciliation pass of `xblock_publish` (lines 1155-1164 of
split.py): for every parent of the subtree root in the source, the
destination copy of that parent must exist (checked by the caller) and its
children are reconciled through `_sync_children`; a `KeyError` escapes when
the parent is missing from either side. -/
def sync_parents (Sb : BlocksMap) (r : String) (parents : List String)
    (acc : BlocksMap × List String) : Except SplitError (BlocksMap × List String) :=
  parents.foldlM
    (fun (acc2 : BlocksMap × List String) parentLoc => do
      let (dblocks, orph) := acc2
      match alookup Sb parentLoc, alookup dblocks parentLoc with
      | some srcParent, some dstParent => do
        let (dstParent, newOrphans) ← sync_children srcParent dstParent r
        pure (aset dblocks parentLoc dstParent, setUnion orph newOrphans)
      | _, _ => throw SplitError.keyError) acc

/-- `xblock_publish(user_id, source_course, destination_course, subtree_list,
blacklist)`: publish each subtree from the source course to the destination
course, reconciling the parents' child lists, then reclaiming true orphans;
always inserts the new destination structure and advances the destination
branch head to it. -/
def xblock_publish (db : DB) (userId : Nat) (sourceCourse destinationCourse : CourseLocator)
    (subtreeList : List String) (blacklist : List String) (fuel : Nat) :
    Except SplitError DB := do
  let sourceStructure ← lookup_course db sourceCourse
  let indexEntry ←
    match destinationCourse.package_id with
    | none => throw SplitError.itemNotFound
    | some pid =>
      match get_course_index db pid with
      | none => throw SplitError.itemNotFound
      | some idx => pure idx
  let (destinationStructure, db) ←
    match versionsLookup indexEntry destinationCourse.branch with
    | none =>
      -- must be publishing the dag root if there's no current dag
      if ¬ subtreeList.contains sourceStructure.root then throw SplitError.itemNotFound
      else
        -- _new_structure(user_id, source_structure['root'])
        let (newId, db) := freshId db
        pure (({ id := newId
               , root := sourceStructure.root
               , previous_version := none
               , original_version := newId
               , edited_by := userId
               , edited_on := db.now
               , blocks := [] } : Structure), db)
    | some _ => do
      let ds ← lookup_course db destinationCourse
      pure (version_structure db ds userId)
  -- iterate over subtree list filtering out blacklist
  let (destinationBlocks, orphans) ← subtreeList.foldlM
    (fun (acc : BlocksMap × List String) subtreeRoot => do
      let (destinationBlocks, orphans) := acc
      let parents := get_parents_from_structure subtreeRoot sourceStructure
      if ¬ parents.all (fun parent => hasKey destinationBlocks parent) then
        throw SplitError.itemNotFound
      let (destinationBlocks, orphans) ←
        sync_parents sourceStructure.blocks subtreeRoot parents (destinationBlocks, orphans)
      -- update/create the subtree and its children in destination
      match publish_subdag userId db.now sourceStructure.blocks blacklist fuel subtreeRoot
              destinationBlocks with
      | none => throw SplitError.keyError
      | some (destinationBlocks, newOrphans) =>
        pure (destinationBlocks, setUnion orphans newOrphans))
    (destinationStructure.blocks, ([] : List String))
  -- remove any remaining orphans (moved ones are kept by the parent check)
  let destinationBlocks ← orphans.foldlM (fun blocks orphan =>
      match delete_if_true_orphan fuel orphan blocks with
      | none => throw SplitError.keyError
      | some blocks => pure blocks) destinationBlocks
  let destinationStructure := { destinationStructure with blocks := destinationBlocks }
  let db := insert_structure db destinationStructure
  let db := update_head db indexEntry destinationCourse.branch destinationStructure.id
  pure db

/-! ## Association-list lemmas -/

section AListLemmas

variable {κ α : Type} [DecidableEq κ]

theorem alookup_cons (a : κ) (b : α) (t : List (κ × α)) (k : κ) :
    alookup ((a, b) :: t) k = if a = k then some b else alookup t k := by
  by_cases h : a = k <;> simp [alookup, List.find?, h]

@[simp] theorem alookup_nil (k : κ) : alookup ([] : List (κ × α)) k = none := rfl

@[simp] theorem alookup_aset_self (l : List (κ × α)) (k : κ) (v : α) :
    alookup (aset l k v) k = some v := by
  induction l with
  | nil => simp [aset, alookup_cons]
  | cons p t ih =>
    obtain ⟨a, b⟩ := p
    by_cases h : a = k <;> simp [aset, h, alookup_cons, ih]

theorem alookup_aset_ne (l : List (κ × α)) (k k' : κ) (v : α) (h : k' ≠ k) :
    alookup (aset l k v) k' = alookup l k' := by
  induction l with
  | nil =>
    rw [aset, alookup_cons, if_neg (fun hh => h hh.symm)]
  | cons p t ih =>
    obtain ⟨a, b⟩ := p
    by_cases hak : a = k
    · subst hak
      have h1 : aset ((a, b) :: t) a v = (a, v) :: t := by simp [aset]
      rw [h1, alookup_cons, alookup_cons,
        if_neg (show ¬ a = k' from fun hh => h (hh.symm)),
        if_neg (show ¬ a = k' from fun hh => h (hh.symm))]
    · simp only [aset, if_neg hak]
      rw [alookup_cons, alookup_cons, ih]

theorem aset_eq_self {l : List (κ × α)} {k : κ} {v : α} (h : alookup l k = some v) :
    aset l k v = l := by
  induction l with
  | nil => simp [alookup] at h
  | cons p t ih =>
    obtain ⟨a, b⟩ := p
    rw [alookup_cons] at h
    by_cases hak : a = k
    · simp only [if_pos hak] at h
      cases h
      simp [aset, hak]
    · simp only [if_neg hak] at h
      simp [aset, hak, ih h]

theorem mem_of_alookup {l : List (κ × α)} {k : κ} {v : α} (h : alookup l k = some v) :
    (k, v) ∈ l := by
  induction l with
  | nil => simp [alookup] at h
  | cons p t ih =>
    obtain ⟨a, b⟩ := p
    rw [alookup_cons] at h
    by_cases hak : a = k
    · simp only [if_pos hak] at h
      cases h
      subst hak
      exact List.mem_cons_self _ _
    · simp only [if_neg hak] at h
      exact List.mem_cons_of_mem _ (ih h)

theorem hasKey_of_mem {l : List (κ × α)} {k : κ} {v : α} (h : (k, v) ∈ l) :
    hasKey l k = true := by
  induction l with
  | nil => simp at h
  | cons p t ih =>
    obtain ⟨a, b⟩ := p
    rcases List.mem_cons.mp h with h1 | h2
    · cases h1
      simp [hasKey, alookup_cons]
    · by_cases hak : a = k
      · simp [hasKey, alookup_cons, hak]
      · simpa [hasKey, alookup_cons, hak] using ih h2

theorem alookup_isSome_iff {l : List (κ × α)} {k : κ} :
    (alookup l k).isSome = true ↔ ∃ v, (k, v) ∈ l := by
  constructor
  · intro h
    rcases Option.isSome_iff_exists.mp h with ⟨v, hv⟩
    exact ⟨v, mem_of_alookup hv⟩
  · rintro ⟨v, hv⟩
    have := hasKey_of_mem hv
    simpa [hasKey] using this

theorem alookup_eq_of_mem_nodup {l : List (κ × α)} {k : κ} {v : α}
    (hn : (l.map Prod.fst).Nodup) (hm : (k, v) ∈ l) : alookup l k = some v := by
  induction l with
  | nil => simp at hm
  | cons p t ih =>
    obtain ⟨a, b⟩ := p
    simp only [List.map_cons, List.nodup_cons] at hn
    rcases List.mem_cons.mp hm with h1 | h2
    · cases h1
      simp [alookup_cons]
    · have hak : a ≠ k := by
        intro hh
        exact hn.1 (by simpa [hh] using List.mem_map_of_mem Prod.fst h2)
      simp [alookup_cons, hak, ih hn.2 h2]

theorem keys_adel_sublist (l : List (κ × α)) (k : κ) :
    ((adel l k).map Prod.fst).Sublist (l.map Prod.fst) := by
  induction l with
  | nil => simp [adel]
  | cons p t ih =>
    obtain ⟨a, b⟩ := p
    by_cases hak : a = k
    · simp only [adel, if_pos hak, List.map_cons]
      exact (List.sublist_cons_self _ _)
    · simp only [adel, if_neg hak, List.map_cons]
      exact ih.cons₂ _

theorem alookup_adel_ne (l : List (κ × α)) (hn : (l.map Prod.fst).Nodup) (k k' : κ)
    (h : k' ≠ k) : alookup (adel l k) k' = alookup l k' := by
  induction l with
  | nil => simp [adel]
  | cons p t ih =>
    obtain ⟨a, b⟩ := p
    simp only [List.map_cons, List.nodup_cons] at hn
    by_cases hak : a = k
    · simp only [adel, if_pos hak]
      rw [alookup_cons, if_neg]
      intro hh
      exact h (by rw [← hh, hak])
    · simp only [adel, if_neg hak]
      rw [alookup_cons, alookup_cons, ih hn.2]

theorem alookup_adel_self (l : List (κ × α)) (hn : (l.map Prod.fst).Nodup) (k : κ) :
    alookup (adel l k) k = none := by
  induction l with
  | nil => simp [adel]
  | cons p t ih =>
    obtain ⟨a, b⟩ := p
    simp only [List.map_cons, List.nodup_cons] at hn
    by_cases hak : a = k
    · simp only [adel, if_pos hak]
      subst hak
      cases hv : alookup t a with
      | none => rfl
      | some v =>
        exact absurd (List.mem_map_of_mem Prod.fst (mem_of_alookup hv)) (by simpa using hn.1)
    · simp only [adel, if_neg hak]
      rw [alookup_cons, if_neg hak, ih hn.2]

end AListLemmas

/-! ## List-fold lemmas -/

theorem foldl_append_filter {α : Type} (P : α → Bool) (l acc : List α) :
    l.foldl (fun a c => if P c then a ++ [c] else a) acc = acc ++ l.filter P := by
  induction l generalizing acc with
  | nil => simp
  | cons c rest ih =>
    by_cases h : P c <;> simp [List.foldl_cons, h, ih, List.filter_cons]

theorem mem_setAdd {l : List String} {x y : String} :
    x ∈ setAdd l y ↔ x ∈ l ∨ x = y := by
  by_cases h : l.contains y
  · rw [setAdd, if_pos h]
    constructor
    · exact Or.inl
    · rintro (hx | rfl)
      · exact hx
      · simpa using h
  · rw [setAdd, if_neg h]
    simp

theorem mem_orphans_fold {S D acc : List String} {x : String} :
    x ∈ D.foldl (fun o child => if S.contains child then o else setAdd o child) acc ↔
      x ∈ acc ∨ (x ∈ D ∧ x ∉ S) := by
  induction D generalizing acc with
  | nil => simp
  | cons c rest ih =>
    by_cases h : S.contains c
    · simp only [List.foldl_cons, if_pos h, ih]
      constructor
      · rintro (ha | hm)
        · exact Or.inl ha
        · exact Or.inr ⟨List.mem_cons_of_mem _ hm.1, hm.2⟩
      · rintro (ha | ⟨hm, hns⟩)
        · exact Or.inl ha
        · rcases List.mem_cons.mp hm with rfl | hm2
          · exact absurd (by simpa using h) hns
          · exact Or.inr ⟨hm2, hns⟩
    · simp only [List.foldl_cons, if_neg h, ih, mem_setAdd]
      constructor
      · rintro ((ha | rfl) | hm)
        · exact Or.inl ha
        · exact Or.inr ⟨List.mem_cons_self _ _, by simpa using h⟩
        · exact Or.inr ⟨List.mem_cons_of_mem _ hm.1, hm.2⟩
      · rintro (ha | ⟨hm, hns⟩)
        · exact Or.inl (Or.inl ha)
        · rcases List.mem_cons.mp hm with rfl | hm2
          · exact Or.inl (Or.inr rfl)
          · exact Or.inr ⟨hm2, hns⟩

/-! ## Digit-string lemmas -/

theorem digit_char_isDigit {d : Nat} (h : d < 10) : (Char.ofNat (48 + d)).isDigit = true := by
  interval_cases d <;> decide

theorem digitVal_digit_char {d : Nat} (h : d < 10) : digitVal (Char.ofNat (48 + d)) = d := by
  interval_cases d <;> decide

theorem natDigitsAux_fuel_irrelevant (n : Nat) :
    ∀ fuel fuel', n < fuel → n < fuel' → natDigitsAux fuel n = natDigitsAux fuel' n := by
  induction n using Nat.strong_induction_on with
  | _ n ih =>
    intro fuel fuel' hf hf'
    match fuel, fuel' with
    | f + 1, f' + 1 =>
      by_cases h : n < 10
      · simp [natDigitsAux, h]
      · simp only [natDigitsAux, if_neg h]
        rw [ih (n / 10) (Nat.div_lt_self (by omega) (by omega)) f f' (by omega) (by omega)]

theorem natDigits_eq (n : Nat) :
    natDigits n = if n < 10 then [Char.ofNat (48 + n)]
      else natDigits (n / 10) ++ [Char.ofNat (48 + n % 10)] := by
  show natDigitsAux (n + 1) n = _
  by_cases h : n < 10
  · simp [natDigitsAux, h]
  · simp only [natDigitsAux, if_neg h]
    rw [natDigitsAux_fuel_irrelevant (n / 10) n (n / 10 + 1)
      (Nat.div_lt_self (by omega) (by omega)) (by omega)]
    rfl

theorem natDigits_ne_nil (n : Nat) : natDigits n ≠ [] := by
  rw [natDigits_eq]
  by_cases h : n < 10 <;> simp [h]

theorem natDigits_all_digits (n : Nat) : ∀ c ∈ natDigits n, c.isDigit = true := by
  induction n using Nat.strong_induction_on with
  | _ n ih =>
    rw [natDigits_eq]
    by_cases h : n < 10
    · simp only [if_pos h, List.mem_singleton]
      rintro c rfl
      exact digit_char_isDigit h
    · simp only [if_neg h, List.mem_append, List.mem_singleton]
      rintro c (hc | rfl)
      · exact ih (n / 10) (Nat.div_lt_self (by omega) (by omega)) c hc
      · exact digit_char_isDigit (Nat.mod_lt _ (by omega))

theorem parseDigits_append_one (xs : List Char) (c : Char) :
    parseDigits (xs ++ [c]) = parseDigits xs * 10 + digitVal c := by
  simp [parseDigits, List.foldl_append]

theorem parseDigits_natDigits (n : Nat) : parseDigits (natDigits n) = n := by
  induction n using Nat.strong_induction_on with
  | _ n ih =>
    rw [natDigits_eq]
    by_cases h : n < 10
    · simp only [if_pos h]
      simp [parseDigits, digitVal_digit_char h]
    · simp only [if_neg h]
      rw [parseDigits_append_one, ih (n / 10) (Nat.div_lt_self (by omega) (by omega)),
        digitVal_digit_char (Nat.mod_lt _ (by omega))]
      omega

theorem isPrefixOf_append_self (root x : List Char) : root.isPrefixOf (root ++ x) = true := by
  induction root with
  | nil => simp [List.isPrefixOf]
  | cons c rest ih => simp [List.isPrefixOf, ih]

theorem containsSub_append_self (needle x : List Char) :
    containsSub needle (needle ++ x) = true := by
  cases h : needle ++ x with
  | nil =>
    rcases List.append_eq_nil.mp h with ⟨h1, _⟩
    simp [containsSub, h1]
  | cons c rest =>
    rw [containsSub, ← h, isPrefixOf_append_self]
    simp

theorem find_serial_append_digits (root ds : List Char) (hne : ds ≠ [])
    (hdig : ∀ c ∈ ds, c.isDigit = true) :
    find_serial root (root ++ ds) = some (parseDigits ds) := by
  cases he : root ++ ds with
  | nil =>
    rcases List.append_eq_nil.mp he with ⟨_, h2⟩
    exact absurd h2 hne
  | cons c rest =>
    rw [find_serial, ← he, isPrefixOf_append_self]
    simp only [if_true]
    rw [List.drop_left]
    cases ds with
    | nil => exact absurd rfl hne
    | cons d ds' =>
      have hd : d.isDigit = true := hdig d (List.mem_cons_self _ _)
      have ht : List.takeWhile Char.isDigit (d :: ds') = d :: ds' :=
        List.takeWhile_eq_self_iff.mpr hdig
      simp [hd, ht]

theorem serial_fold_ge_init (root : List Char) (entries : List CourseIndex) (m0 : Nat) :
    m0 ≤ entries.foldl (serial_fold_step root) m0 := by
  induction entries generalizing m0 with
  | nil => simp
  | cons e rest ih =>
    refine le_trans ?_ (ih (serial_fold_step root m0 e))
    rw [serial_fold_step]
    cases find_serial root e.id.data with
    | none => exact le_refl _
    | some v =>
      by_cases h : v > m0 <;> simp [h]
      omega

theorem serial_fold_ge (root : List Char) (e : CourseIndex) (v : Nat)
    (hv : find_serial root e.id.data = some v) :
    ∀ (entries : List CourseIndex), e ∈ entries → ∀ (m0 : Nat),
      v ≤ entries.foldl (serial_fold_step root) m0 := by
  intro entries
  induction entries with
  | nil => intro h; simp at h
  | cons f rest ih =>
    intro he m0
    rcases List.mem_cons.mp he with heq | he2
    · subst heq
      refine le_trans ?_ (serial_fold_ge_init root rest (serial_fold_step root m0 e))
      rw [serial_fold_step, hv]
      by_cases h : v > m0 <;> simp [h]
      omega
    · exact ih he2 _

/-! ## Concrete example states -/

/-- A two-block course structure: root `course` with child `chapter1`. -/
def demoStruct : Structure :=
  { id := 100
  , root := "course"
  , previous_version := none
  , original_version := 100
  , edited_by := 1
  , edited_on := 0
  , blocks :=
    [ ("course",
       { category := "course"
       , definition := 7
       , fields := [("children", FVal.ids ["chapter1"])]
       , edit_info := { edited_on := 0, edited_by := 1, previous_version := none, update_version := 100 } })
    , ("chapter1",
       { category := "chapter"
       , definition := 8
       , fields := [("children", FVal.ids []), ("title", FVal.str "x")]
       , edit_info := { edited_on := 0, edited_by := 1, previous_version := none, update_version := 100 } }) ] }

/-- A store holding course `p` whose `draft` head is `demoStruct` (id 100). -/
def demoDB : DB :=
  { indexes :=
    [ { id := "p", org := "org", prettyid := "P", edited_by := 1, edited_on := 0
      , versions := [(some "draft", 100)] } ]
  , structures := [demoStruct]
  , definitions :=
    [ { id := 7, category := "course", fields := []
      , edit_info := { edited_by := 1, edited_on := 0, previous_version := none, original_version := 7 } }
    , { id := 8, category := "chapter", fields := [("text", FVal.str "hi")]
      , edit_info := { edited_by := 1, edited_on := 0, previous_version := none, original_version := 8 } } ]
  , nextId := 200
  , now := 5 }

/-- A scope registry: `text` is content scope, everything else settings. -/
def demoScope : String → Scope := fun f => if f = "text" then Scope.content else Scope.settings

/-- A descriptor for `chapter1` of `demoDB` whose locator pins the stale
version guid 99 (the head is 100). -/
def demoStaleDescriptor : Descriptor :=
  { location := { course := { package_id := some "p", branch := some "draft", version_guid := some 99 }
                , block_id := "chapter1" }
  , definition_locator := DefLocator.defId 8
  , content_fields := [("text", FVal.str "hi")]
  , settings_fields := [("title", FVal.str "x")]
  , has_children := true
  , children := [] }

/-- C1's scenario: blocks where `a` has no parent and its only child is `b`. -/
def c3blocks : BlocksMap :=
  [ ("course",
     { category := "course", definition := 7, fields := [("children", FVal.ids [])]
     , edit_info := { edited_on := 0, edited_by := 1, previous_version := none, update_version := 100 } })
  , ("a",
     { category := "chapter", definition := 8, fields := [("children", FVal.ids ["b"])]
     , edit_info := { edited_on := 0, edited_by := 1, previous_version := none, update_version := 100 } })
  , ("b",
     { category := "chapter", definition := 8, fields := [("children", FVal.ids [])]
     , edit_info := { edited_on := 0, edited_by := 1, previous_version := none, update_version := 100 } }) ]

/-- Version history for the successor-tree scenario: 10 → 11 → {12, 13}. -/
def c9DB : DB :=
  { indexes := []
  , structures :=
    [ { id := 10, root := "course", previous_version := none, original_version := 10
      , edited_by := 1, edited_on := 0, blocks := [] }
    , { id := 11, root := "course", previous_version := some 10, original_version := 10
      , edited_by := 1, edited_on := 0, blocks := [] }
    , { id := 12, root := "course", previous_version := some 11, original_version := 10
      , edited_by := 1, edited_on := 0, blocks := [] }
    , { id := 13, root := "course", previous_version := some 11, original_version := 10
      , edited_by := 1, edited_on := 0, blocks := [] } ]
  , definitions := [], nextId := 20, now := 0 }

/-- A three-block course `course → chapter1 → para1` for the orphan
scenario. -/
def c10Struct : Structure :=
  { id := 100
  , root := "course"
  , previous_version := none
  , original_version := 100
  , edited_by := 1
  , edited_on := 0
  , blocks :=
    [ ("course",
       { category := "course", definition := 7
       , fields := [("children", FVal.ids ["chapter1"])]
       , edit_info := { edited_on := 0, edited_by := 1, previous_version := none, update_version := 100 } })
    , ("chapter1",
       { category := "chapter", definition := 8
       , fields := [("children", FVal.ids ["para1"])]
       , edit_info := { edited_on := 0, edited_by := 1, previous_version := none, update_version := 100 } })
    , ("para1",
       { category := "html", definition := 9
       , fields := [("children", FVal.ids [])]
       , edit_info := { edited_on := 0, edited_by := 1, previous_version := none, update_version := 100 } }) ] }

/-- A store holding course `p10` whose `draft` head is `c10Struct`. -/
def c10DB : DB :=
  { indexes :=
    [ { id := "p10", org := "org", prettyid := "", edited_by := 1, edited_on := 0
      , versions := [(some "draft", 100)] } ]
  , structures := [c10Struct]
  , definitions := []
  , nextId := 200
  , now := 5 }

/-- An index document carrying only a package id. -/
def mkIdx (s : String) : CourseIndex :=
  { id := s, org := "org", prettyid := "", edited_by := 1, edited_on := 0, versions := [] }

/-- Existing package ids `org` and `org2`. -/
def c8db : DB :=
  { indexes := [mkIdx "org", mkIdx "org2"], structures := [], definitions := [], nextId := 0, now := 0 }

/-- Existing package ids containing serials 13 and 14 after `org`. -/
def c8db2 : DB :=
  { indexes := [mkIdx "borg13", mkIdx "org14"], structures := [], definitions := [], nextId := 0, now := 0 }

/-- Existing package ids without any occurrence of `org`. -/
def c8db3 : DB :=
  { indexes := [mkIdx "alpha", mkIdx "beta"], structures := [], definitions := [], nextId := 0, now := 0 }

/-- The package-id rule as the specification words it, for comparison with
the implementation: append the lowest decimal suffix (or no suffix) making
the id unique among the existing package ids (only ids of the shape
`id_root` or `id_root<digits>` can collide with such a candidate, so
uniqueness among all existing ids is the same condition).  Fuelled first-free
search; `db.indexes.length + 1` candidates always contain a free one. -/
def spec_package_id_from (db : DB) (idRoot : String) : Nat → Nat → String
  | 0, serial => idRoot ++ natToStr serial
  | fuel + 1, serial =>
    if db.indexes.any (fun i => i.id = idRoot ++ natToStr serial) then
      spec_package_id_from db idRoot fuel (serial + 1)
    else idRoot ++ natToStr serial

/-- The specification's package-id rule (see `spec_package_id_from`). -/
def spec_package_id (db : DB) (idRoot : String) : String :=
  if db.indexes.any (fun i => i.id = idRoot) then
    spec_package_id_from db idRoot (db.indexes.length + 1) 1
  else idRoot

/-- Source course for the publish scenario: `course → a`, version 300. -/
def c4Src : Structure :=
  { id := 300
  , root := "course"
  , previous_version := none
  , original_version := 300
  , edited_by := 1
  , edited_on := 0
  , blocks :=
    [ ("course",
       { category := "course", definition := 7
       , fields := [("children", FVal.ids ["a"])]
       , edit_info := { edited_on := 0, edited_by := 1, previous_version := none, update_version := 300 } })
    , ("a",
       { category := "chapter", definition := 8
       , fields := [("children", FVal.ids [])]
       , edit_info := { edited_on := 0, edited_by := 1, previous_version := none, update_version := 300 } }) ] }

/-- A store holding source course `src` (draft head 300) and a destination
course `dst` with no `published` branch yet. -/
def c4DB : DB :=
  { indexes :=
    [ { id := "src", org := "org", prettyid := "", edited_by := 1, edited_on := 0
      , versions := [(some "draft", 300)] }
    , { id := "dst", org := "org", prettyid := "", edited_by := 1, edited_on := 0
      , versions := [] } ]
  , structures := [c4Src]
  , definitions := []
  , nextId := 400
  , now := 9 }

/-- Locator for the `draft` branch of the source course. -/
def c4SrcLoc : CourseLocator :=
  { package_id := some "src", branch := some "draft", version_guid := none }

/-- Locator for the `published` branch of the destination course. -/
def c4DstLoc : CourseLocator :=
  { package_id := some "dst", branch := some "published", version_guid := none }

/-- The store after the first publish of `course` from `src` to `dst`. -/
def c4db1 : DB :=
  (xblock_publish c4DB 2 c4SrcLoc c4DstLoc ["course"] [] 10).toOption.getD c4DB

/-- The store after publishing a second time with the same arguments. -/
def c4db2 : DB :=
  (xblock_publish c4db1 2 c4SrcLoc c4DstLoc ["course"] [] 10).toOption.getD c4DB

/-- The destination course index after the first publish. -/
def c4idx1 : CourseIndex :=
  (get_course_index c4db1 "dst").getD (mkIdx "dst")

/-- The destination branch head structure after the first publish. -/
def c4D : Structure :=
  (get_structure c4db1 400).getD c4Src

/-! ## Claim theorems -/

/-- C1: the claim says a write with `force=true` on a locator naming
`package_id`, `branch`, and a `version_guid` different from the branch head
succeeds without advancing `versions[branch]`.  In the code every such write
(`create_item`, `update_item`, `delete_item`) raises `VersionConflictError`
carrying the head instead: `_lookup_course` re-checks the head without
consulting `force`.  Here the head of `p`/`draft` is 100 and the locator
carries version guid 99. -/
theorem forced_write_raises_version_conflict :
    create_item demoDB demoScope
        { package_id := some "p", branch := some "draft", version_guid := some 99 }
        none "chapter" 2 (some "newblock") none (some []) true false
      = Except.error (SplitError.versionConflict 100)
    ∧ update_item demoDB demoStaleDescriptor 2 true
      = Except.error (SplitError.versionConflict 100)
    ∧ delete_item demoDB
        { course := { package_id := some "p", branch := some "draft", version_guid := some 99 }
        , block_id := "chapter1" } 2 false true 10
      = Except.error (SplitError.versionConflict 100) :=
  ⟨rfl, rfl, rfl⟩

/-- C3: the claim (and `_delete_if_true_orphan`'s docstring) says deleting a
true orphan also removes its descendants that thereby become unreachable.
In the code the recursive child calls run while the orphan is still present,
so each child still has a parent and is kept: deleting parentless `a` (whose
only child is `b`, referenced by nobody else) leaves `b` in the blocks map
with no parents. -/
theorem delete_if_true_orphan_keeps_descendants :
    (delete_if_true_orphan 10 "a" c3blocks).map (fun b => b.map Prod.fst)
      = some ["course", "b"]
    ∧ (delete_if_true_orphan 10 "a" c3blocks).map (fun b => get_parents_from_blocks "b" b)
      = some [] :=
  ⟨rfl, rfl⟩

/-- C9: the claim says each visited structure id maps to the list of its
immediate successor ids.  Structure 11's immediate successors in `c9DB` are
12 and 13, but at depth 2 the code records `[13, 13]` under 11: the loop
body appends `struct['_id']` where `struct` is the variable leaked from the
preceding list comprehension (always the last structure of the level),
instead of `course_structure['_id']`. -/
theorem course_successors_wrong_ids :
    (find_structures_by_previous c9DB [11]).map Structure.id = [12, 13]
    ∧ get_course_successors c9DB
        { package_id := none, branch := none, version_guid := some 10 } 2
      = Except.ok (some { root := 10, tree := [(10, [11]), (11, [13, 13])] })
    ∧ ([13, 13] : List Nat) ≠ [12, 13] :=
  ⟨rfl, rfl, by decide⟩

/-- C8 (counterexample): with existing package ids `org` and `org2`, the
specified lowest-unique-suffix rule yields `org1`, but `create_course`'s id
allocation (`_generate_package_id`) yields `org3` (one more than the largest
serial found). -/
theorem generate_package_id_not_lowest :
    (create_course_index c8db "org" "" 1 none []).2 = "org3"
    ∧ spec_package_id c8db "org" = "org1"
    ∧ (create_course_index c8db "org" "" 1 none []).2 ≠ spec_package_id c8db "org" :=
  ⟨rfl, rfl, by decide⟩

/-- C8 (amended): `_generate_package_id` returns `id_root` unchanged when no
existing package id contains `id_root` as a substring, and otherwise appends
one plus the largest decimal serial following an occurrence of `id_root` in
an existing package id; either way the generated id differs from every
existing package id. -/
theorem generate_package_id_max_plus_one (db : DB) (idRoot : String) :
    (∀ i ∈ db.indexes, generate_package_id db idRoot ≠ i.id)
    ∧ ((∀ i ∈ db.indexes, containsSub idRoot.data i.id.data = false) →
        generate_package_id db idRoot = idRoot)
    ∧ (0 < (db.indexes.filter (fun j => containsSub idRoot.data j.id.data)).length →
        generate_package_id db idRoot
          = idRoot ++ natToStr
              ((db.indexes.filter (fun j => containsSub idRoot.data j.id.data)).foldl
                (serial_fold_step idRoot.data) 0 + 1)) := by
  have hdef : generate_package_id db idRoot
      = if (db.indexes.filter (fun j => containsSub idRoot.data j.id.data)).length > 0 then
          idRoot ++ natToStr
            ((db.indexes.filter (fun j => containsSub idRoot.data j.id.data)).foldl
              (serial_fold_step idRoot.data) 0 + 1)
        else idRoot := rfl
  refine ⟨?_, ?_, ?_⟩
  · intro i hi heq
    rw [hdef] at heq
    by_cases hlen : (db.indexes.filter (fun j => containsSub idRoot.data j.id.data)).length > 0
    · rw [if_pos hlen] at heq
      have hdata : i.id.data = idRoot.data
          ++ natDigits ((db.indexes.filter (fun j => containsSub idRoot.data j.id.data)).foldl
              (serial_fold_step idRoot.data) 0 + 1) := by
        rw [← heq, String.data_append]
        rfl
      have hmem : i ∈ db.indexes.filter (fun j => containsSub idRoot.data j.id.data) := by
        refine List.mem_filter.mpr ⟨hi, ?_⟩
        rw [hdata]
        simp [containsSub_append_self]
      have hser : find_serial idRoot.data i.id.data
          = some ((db.indexes.filter (fun j => containsSub idRoot.data j.id.data)).foldl
              (serial_fold_step idRoot.data) 0 + 1) := by
        rw [hdata, find_serial_append_digits _ _ (natDigits_ne_nil _) (natDigits_all_digits _),
          parseDigits_natDigits]
      have := serial_fold_ge idRoot.data i _ hser _ hmem 0
      omega
    · rw [if_neg hlen] at heq
      have : i ∈ db.indexes.filter (fun j => containsSub idRoot.data j.id.data) := by
        refine List.mem_filter.mpr ⟨hi, ?_⟩
        have hd : i.id.data = idRoot.data ++ [] := by rw [← heq]; simp
        rw [hd]
        exact containsSub_append_self idRoot.data []
      exact hlen (List.length_pos.mpr (List.ne_nil_of_mem this))
  · intro hnone
    rw [hdef, if_neg]
    intro hlen
    rcases List.exists_mem_of_length_pos hlen with ⟨j, hj⟩
    rcases List.mem_filter.mp hj with ⟨hj1, hj2⟩
    rw [hnone j hj1] at hj2
    exact Bool.false_ne_true hj2
  · intro hlen
    rw [hdef, if_pos hlen]

/-- C8 (amended, witness): concrete instances of the amended theorem: with
existing ids `borg13` and `org14` the generator avoids `org14`, and with no
id containing `org` it returns `org` itself. -/
theorem generate_package_id_max_plus_one_witness :
    generate_package_id c8db2 "org" ≠ "org14"
    ∧ generate_package_id c8db3 "org" = "org" :=
  ⟨(generate_package_id_max_plus_one c8db2 "org").1 (mkIdx "org14") (by decide)
  , (generate_package_id_max_plus_one c8db3 "org").2.1 (by decide)⟩

/-- A fold of appends under a decidable guard is a filter. -/
theorem foldl_append_filter_pred {α : Type} (p : α → Prop) [DecidablePred p]
    (l acc : List α) :
    l.foldl (fun a c => if p c then a ++ [c] else a) acc
      = acc ++ l.filter (fun c => decide (p c)) := by
  induction l generalizing acc with
  | nil => simp
  | cons c rest ih =>
    by_cases h : p c <;> simp [List.foldl_cons, h, ih, List.filter_cons]

/-- C5: `_sync_children` sets the destination children to the subsequence of
the source children `S` keeping exactly the ids equal to the published root
`r` or already present in the destination children `D`, and returns as
orphans exactly the elements of `D` that are not in `S`. -/
theorem sync_children_spec (srcP dstP : BlockEntry) (r : String) (S D : List String)
    (hS : alookup srcP.fields "children" = some (FVal.ids S))
    (hD : alookup dstP.fields "children" = some (FVal.ids D)) :
    ∃ orphans,
      sync_children srcP dstP r = Except.ok
        ({ dstP with
            fields := aset dstP.fields "children"
              (FVal.ids (S.filter (fun c => decide (c = r ∨ D.contains c)))) }, orphans)
      ∧ (∀ x, x ∈ orphans ↔ x ∈ D ∧ x ∉ S) := by
  refine ⟨D.foldl (fun o child => if S.contains child then o else setAdd o child) [], ?_, ?_⟩
  · simp only [sync_children, hS, hD, bind, Except.bind, pure, Except.pure]
    rw [foldl_append_filter_pred (fun child => child = r ∨ D.contains child) S []]
    rfl
  · intro x
    rw [mem_orphans_fold]
    simp

/-- C5 (witness): reconciling source children `[a,b,c,d,e]` with destination
children `[e,b]` while publishing `c`. -/
theorem sync_children_spec_witness :
    ∃ orphans,
      sync_children
        { category := "x", definition := 0, fields := [("children", FVal.ids ["a", "b", "c", "d", "e"])]
        , edit_info := { edited_on := 0, edited_by := 0, previous_version := none, update_version := 0 } }
        { category := "x", definition := 0, fields := [("children", FVal.ids ["e", "b"])]
        , edit_info := { edited_on := 0, edited_by := 0, previous_version := none, update_version := 0 } }
        "c" = Except.ok
        ({ category := "x"
         , definition := 0
         , fields :=
             aset [("children", FVal.ids ["e", "b"])] "children"
               (FVal.ids ((["a", "b", "c", "d", "e"] : List String).filter
                 (fun c => decide (c = "c" ∨ (["e", "b"] : List String).contains c))))
         , edit_info := { edited_on := 0, edited_by := 0, previous_version := none, update_version := 0 } }, orphans)
      ∧ (∀ x, x ∈ orphans ↔ x ∈ (["e", "b"] : List String) ∧ x ∉ (["a", "b", "c", "d", "e"] : List String)) :=
  sync_children_spec _ _ "c" ["a", "b", "c", "d", "e"] ["e", "b"] rfl rfl

/-- `needs_saved` is falsy exactly when the new fields agree with the old
fields key for key and value for value (keys of a real dictionary are
duplicate-free). -/
theorem needs_saved_eq_false_iff (new old : Fields) (hnodup : (new.map Prod.fst).Nodup) :
    needs_saved new old = false ↔ ∀ k, alookup new k = alookup old k := by
  rw [needs_saved, Bool.or_eq_false_iff]
  constructor
  · rintro ⟨h1, h2⟩ k
    rw [List.any_eq_false] at h1 h2
    cases hn : alookup new k with
    | none =>
      cases ho : alookup old k with
      | none => rfl
      | some w =>
        have hmem := mem_of_alookup ho
        have := h2 _ hmem
        simp only [hasKey, hn] at this
        simp at this
    | some v =>
      have hmem := mem_of_alookup hn
      have := h1 _ hmem
      cases ho : alookup old k with
      | none => simp [ho] at this
      | some w =>
        simp only [ho] at this
        simp at this
        rw [this]
  · intro h
    constructor
    · rw [List.any_eq_false]
      intro p hp
      have hk : alookup new p.1 = some p.2 := by
        refine alookup_eq_of_mem_nodup hnodup ?_
        exact (Prod.mk.eta (p := p)) ▸ hp
      rw [← h p.1, hk]
      simp
    · rw [List.any_eq_false]
      intro p hp
      have hk : (alookup old p.1).isSome = true :=
        alookup_isSome_iff.mpr ⟨p.2, (Prod.mk.eta (p := p)) ▸ hp⟩
      simp [hasKey, h p.1, hk]

/-- C7: definition update: identical (filtered) fields return the original
id with `changed=false` and write nothing; otherwise a clone is inserted
under a fresh id whose `previous_version` is the old id and whose
`original_version` (and category) are retained, returned with
`changed=true`. -/
theorem update_definition_spec (db : DB) (did : Nat) (old : Definition) (newFields : Fields)
    (userId : Nat)
    (hget : get_definition db did = some old)
    (hnodup : ((filter_special_fields newFields).map Prod.fst).Nodup)
    (hfresh : ∀ d ∈ db.definitions, d.id < db.nextId) :
    ((∀ k, alookup (filter_special_fields newFields) k = alookup old.fields k) →
      update_definition_from_data db (DefLocator.defId did) newFields userId
        = Except.ok (db, did, false))
    ∧ ((¬ ∀ k, alookup (filter_special_fields newFields) k = alookup old.fields k) →
      ∃ newDef : Definition,
        update_definition_from_data db (DefLocator.defId did) newFields userId
          = Except.ok (insert_definition { db with nextId := db.nextId + 1 } newDef, db.nextId, true)
        ∧ newDef.id = db.nextId
        ∧ (∀ d ∈ db.definitions, d.id ≠ newDef.id)
        ∧ newDef.edit_info.previous_version = some did
        ∧ newDef.edit_info.original_version = old.edit_info.original_version
        ∧ newDef.fields = filter_special_fields newFields
        ∧ newDef.category = old.category) := by
  constructor
  · intro hsame
    have hns : needs_saved (filter_special_fields newFields) old.fields = false :=
      (needs_saved_eq_false_iff _ _ hnodup).mpr hsame
    simp only [update_definition_from_data, hget, hns]
    rfl
  · intro hdiff
    have hns : needs_saved (filter_special_fields newFields) old.fields = true := by
      by_contra hc
      exact hdiff ((needs_saved_eq_false_iff _ _ hnodup).mp (Bool.not_eq_true _ ▸ (by simpa using hc)))
    refine ⟨{ old with
                id := db.nextId
              , fields := filter_special_fields newFields
              , edit_info :=
                { old.edit_info with
                    edited_by := userId
                  , edited_on := db.now
                  , previous_version := some did } }, ?_, rfl, ?_, rfl, rfl, rfl, rfl⟩
    · simp only [update_definition_from_data, hget, hns, freshId]
      rfl
    · intro d hd
      exact Nat.ne_of_lt (hfresh d hd)

/-- A found course index carries the package id it was found by. -/
theorem get_course_index_id {db : DB} {pkg : String} {idx : CourseIndex}
    (h : get_course_index db pkg = some idx) : idx.id = pkg := by
  have := List.find?_some h
  simpa using this

/-- Replacing a found element in a list of course indexes is visible to a
subsequent `find?` by the same package id. -/
theorem find?_map_update {l : List CourseIndex} {pkg : String} {idx newIdx : CourseIndex}
    (h : l.find? (fun i => i.id = pkg) = some idx) (hid : newIdx.id = idx.id) :
    (l.map (fun j => if j.id = newIdx.id then newIdx else j)).find? (fun i => i.id = pkg)
      = some newIdx := by
  have hpkg : idx.id = pkg := by simpa using List.find?_some h
  induction l with
  | nil => simp at h
  | cons j rest ih =>
    rw [List.map_cons]
    by_cases hj : j.id = pkg
    · rw [List.find?_cons_of_pos _ (by simpa using hj)] at h
      cases h
      rw [if_pos (by rw [hid]), List.find?_cons_of_pos _ (by simp [hid, hpkg])]
    · rw [List.find?_cons_of_neg _ (by simpa using hj)] at h
      rw [if_neg (by rw [hid, hpkg]; exact hj),
        List.find?_cons_of_neg _ (by simpa using hj), ih h]

/-- Replacing a course index document is visible to a subsequent lookup. -/
theorem get_course_index_update {db : DB} {pkg : String} {idx newIdx : CourseIndex}
    (h : get_course_index db pkg = some idx) (hid : newIdx.id = idx.id) :
    get_course_index (update_course_index db newIdx) pkg = some newIdx :=
  find?_map_update h hid

/-- `_lookup_course` on a locator with `package_id` and `branch` that either
omits `version_guid` or pins the current head returns the head structure. -/
theorem lookup_course_resolves {db : DB} {pkg br : String} {vg : Option Nat}
    {idx : CourseIndex} {head : Nat} {s : Structure}
    (hidx : get_course_index db pkg = some idx)
    (hhead : alookup idx.versions (some br) = some head)
    (hs : get_structure db head = some s)
    (hvg : vg = none ∨ vg = some head) :
    lookup_course db { package_id := some pkg, branch := some br, version_guid := vg }
      = Except.ok s := by
  rcases hvg with rfl | rfl <;>
    simp [lookup_course, CourseLocator.is_fully_specified, hidx, versionsLookup, hhead, hs,
      pure, Except.pure, bind, Except.bind]

/-- `_lookup_course` with a `version_guid` different from the branch head
raises `VersionConflictError` carrying the head. -/
theorem lookup_course_conflict {db : DB} {pkg br : String} {vg : Nat}
    {idx : CourseIndex} {head : Nat}
    (hidx : get_course_index db pkg = some idx)
    (hhead : alookup idx.versions (some br) = some head)
    (hne : vg ≠ head) :
    lookup_course db { package_id := some pkg, branch := some br, version_guid := some vg }
      = Except.error (SplitError.versionConflict head) := by
  have hne' : ¬ head = vg := fun hh => hne hh.symm
  simp [lookup_course, CourseLocator.is_fully_specified, hidx, versionsLookup, hhead, hne',
    pure, Except.pure, bind, Except.bind, throw, throwThe, MonadExceptOf.throw]

/-- `_get_index_if_valid` on a head-pinning locator returns the index. -/
theorem get_index_if_valid_head {db : DB} {pkg br : String} {idx : CourseIndex} {head : Nat}
    (hidx : get_course_index db pkg = some idx)
    (hhead : alookup idx.versions (some br) = some head) (force cv : Bool) :
    get_index_if_valid db { package_id := some pkg, branch := some br, version_guid := some head }
      force cv = Except.ok (some idx) := by
  simp [get_index_if_valid, hidx, versionsLookup, hhead, pure, Except.pure]

/-- `_get_index_if_valid` without a `version_guid` returns the index lookup
result without checking the head. -/
theorem get_index_if_valid_no_guid {db : DB} {pkg br : String} (force cv : Bool) :
    get_index_if_valid db { package_id := some pkg, branch := some br, version_guid := none }
      force cv = Except.ok (get_course_index db pkg) := by
  simp [get_index_if_valid, pure, Except.pure]

/-- `_get_index_if_valid` with a non-forced stale `version_guid` raises
`VersionConflictError` carrying the head. -/
theorem get_index_if_valid_conflict {db : DB} {pkg br : String} {idx : CourseIndex}
    {head vg : Nat}
    (hidx : get_course_index db pkg = some idx)
    (hhead : alookup idx.versions (some br) = some head)
    (hne : head ≠ vg) :
    get_index_if_valid db { package_id := some pkg, branch := some br, version_guid := some vg }
      false false = Except.error (SplitError.versionConflict head) := by
  simp [get_index_if_valid, hidx, versionsLookup, hhead, hne,
    pure, Except.pure, throw, throwThe, MonadExceptOf.throw]

/-- Symbolic run of `create_item` on a head-pinning locator with no parent,
fresh block id, no definition locator and no fields: a definition and a
copied structure are inserted under the next two fresh ids and the branch
head advances to the new structure id. -/
theorem create_item_head_exec (db : DB) (scopeOf : String → Scope) (pkg br : String)
    (idx : CourseIndex) (head : Nat) (s : Structure) (category bid : String) (u : Nat)
    (hidx : get_course_index db pkg = some idx)
    (hhead : alookup idx.versions (some br) = some head)
    (hs : get_structure db head = some s)
    (hbid : hasKey s.blocks (encode_key_for_mongo bid) = false) :
    create_item db scopeOf { package_id := some pkg, branch := some br, version_guid := some head }
        none category u (some bid) none none false false
      = Except.ok
        (update_head
          (insert_structure
            { indexes := db.indexes
            , structures := db.structures
            , definitions := db.definitions ++
                [{ id := db.nextId
                 , category := category
                 , fields := []
                 , edit_info := { edited_by := u, edited_on := db.now
                                , previous_version := none, original_version := db.nextId } }]
            , nextId := db.nextId + 2
            , now := db.now }
            (update_block_in_structure
              { s with id := db.nextId + 1, previous_version := some s.id
                     , edited_by := u, edited_on := db.now }
              bid
              { category := category
              , definition := db.nextId
              , fields := []
              , edit_info := { edited_on := db.now, edited_by := u
                             , previous_version := none, update_version := db.nextId + 1 } }))
          idx (some br) (db.nextId + 1)
        , db.nextId + 1, bid) := by
  simp only [create_item, get_index_if_valid_head hidx hhead,
    lookup_course_resolves hidx hhead hs (Or.inr rfl), bind, Except.bind,
    partition_fields_by_scope, create_definition_from_data, filter_special_fields,
    insert_definition, freshId, version_structure, hbid, Bool.false_eq_true, if_false,
    List.foldl_nil, pure, Except.pure, List.filter_nil]
  rfl

/-- C2: a locator carrying `package_id`, `branch`, and a `version_guid`
different from `versions[branch]` makes a read (`_lookup_course`) and a
non-forced write (`create_item`, which checks the index first) raise
`VersionConflictError` carrying the observed head, and (per the `Except`
result) nothing is written.  Of two writers that both read head `head` and
write without `force`, the first succeeds and advances `versions[branch]` to
a fresh structure id different from `head`; the second then receives
`VersionConflictError` carrying the winner's new head. -/
theorem optimistic_concurrency (db : DB) (scopeOf : String → Scope) (pkg br : String)
    (idx : CourseIndex) (head : Nat) (s : Structure) (category bid : String)
    (u u' vg : Nat)
    (hidx : get_course_index db pkg = some idx)
    (hhead : alookup idx.versions (some br) = some head)
    (hs : get_structure db head = some s)
    (hbid : hasKey s.blocks (encode_key_for_mongo bid) = false)
    (hfresh : head < db.nextId)
    (hvg : vg ≠ head) :
    lookup_course db { package_id := some pkg, branch := some br, version_guid := some vg }
      = Except.error (SplitError.versionConflict head)
    ∧ create_item db scopeOf
        { package_id := some pkg, branch := some br, version_guid := some vg }
        none category u' (some bid) none none false false
      = Except.error (SplitError.versionConflict head)
    ∧ ∃ db' : DB,
        create_item db scopeOf
          { package_id := some pkg, branch := some br, version_guid := some head }
          none category u (some bid) none none false false
          = Except.ok (db', db.nextId + 1, bid)
        ∧ db.nextId + 1 ≠ head
        ∧ (∃ idx', get_course_index db' pkg = some idx'
            ∧ alookup idx'.versions (some br) = some (db.nextId + 1))
        ∧ create_item db' scopeOf
            { package_id := some pkg, branch := some br, version_guid := some head }
            none category u' (some bid) none none false false
          = Except.error (SplitError.versionConflict (db.nextId + 1)) := by
  refine ⟨lookup_course_conflict hidx hhead hvg, ?_, ?_⟩
  · simp [create_item, get_index_if_valid_conflict hidx hhead (fun hh => hvg hh.symm),
      bind, Except.bind]
  · refine ⟨_, create_item_head_exec db scopeOf pkg br idx head s category bid u
      hidx hhead hs hbid, by omega, ?_, ?_⟩
    · refine ⟨{ idx with versions := aset idx.versions (some br) (db.nextId + 1) }, ?_, ?_⟩
      · exact get_course_index_update hidx rfl
      · exact alookup_aset_self _ _ _
    · have hidx' : get_course_index
          (update_head
            (insert_structure
              { indexes := db.indexes
              , structures := db.structures
              , definitions := db.definitions ++
                  [{ id := db.nextId
                   , category := category
                   , fields := []
                   , edit_info := { edited_by := u, edited_on := db.now
                                  , previous_version := none, original_version := db.nextId } }]
              , nextId := db.nextId + 2
              , now := db.now }
              (update_block_in_structure
                { s with id := db.nextId + 1, previous_version := some s.id
                       , edited_by := u, edited_on := db.now }
                bid
                { category := category
                , definition := db.nextId
                , fields := []
                , edit_info := { edited_on := db.now, edited_by := u
                               , previous_version := none, update_version := db.nextId + 1 } }))
            idx (some br) (db.nextId + 1)) pkg
          = some { idx with versions := aset idx.versions (some br) (db.nextId + 1) } :=
        get_course_index_update hidx rfl
      have hconf := get_index_if_valid_conflict hidx'
        (alookup_aset_self idx.versions (some br) (db.nextId + 1))
        (show db.nextId + 1 ≠ head by omega)
      simp [create_item, hconf, bind, Except.bind]

/-- C2 (witness): on `demoDB` (course `p`, branch `draft`, head 100, free
block id `newblock`): the stale reader and the stale writer get
`VersionConflict(100)`, the head-reading writer succeeds moving the head to
201, and its competitor then gets `VersionConflict(201)`. -/
theorem optimistic_concurrency_witness :
    lookup_course demoDB { package_id := some "p", branch := some "draft", version_guid := some 99 }
      = Except.error (SplitError.versionConflict 100)
    ∧ create_item demoDB demoScope
        { package_id := some "p", branch := some "draft", version_guid := some 99 }
        none "chapter" 3 (some "newblock") none none false false
      = Except.error (SplitError.versionConflict 100)
    ∧ ∃ db' : DB,
        create_item demoDB demoScope
          { package_id := some "p", branch := some "draft", version_guid := some 100 }
          none "chapter" 2 (some "newblock") none none false false
          = Except.ok (db', 201, "newblock")
        ∧ (201 : Nat) ≠ 100
        ∧ (∃ idx', get_course_index db' "p" = some idx'
            ∧ alookup idx'.versions (some "draft") = some 201)
        ∧ create_item db' demoScope
            { package_id := some "p", branch := some "draft", version_guid := some 100 }
            none "chapter" 3 (some "newblock") none none false false
          = Except.error (SplitError.versionConflict 201) :=
  optimistic_concurrency demoDB demoScope "p" "draft"
    { id := "p", org := "org", prettyid := "P", edited_by := 1, edited_on := 0
    , versions := [(some "draft", 100)] }
    100 demoStruct "chapter" "newblock" 2 3 99 rfl rfl rfl (by decide) (by decide) (by decide)

/-- `_compare_settings` is falsy when the settings dictionary carries
exactly the original fields minus `children`, with equal values. -/
theorem compare_settings_eq_false (settings originalFields : Fields)
    (hnodupO : (originalFields.map Prod.fst).Nodup)
    (hperm : (settings.map Prod.fst).Perm ((originalFields.map Prod.fst).erase "children"))
    (hvals : ∀ p ∈ originalFields, p.1 ≠ "children" →
      alookup settings p.1 = some p.2) :
    compare_settings settings originalFields = false := by
  have hlen : settings.length = ((originalFields.map Prod.fst).erase "children").length := by
    rw [← List.length_map settings Prod.fst]
    exact hperm.length_eq
  rw [compare_settings]
  simp only [if_neg (show ¬ settings.length
    ≠ ((originalFields.map Prod.fst).erase "children").length from fun h => h hlen)]
  rw [List.any_eq_false]
  intro key hkey
  have hkmem := (List.Nodup.mem_erase_iff hnodupO).mp hkey
  rcases List.mem_map.mp hkmem.2 with ⟨p, hp, hfst⟩
  have hlookO : alookup originalFields key = some p.2 := by
    refine alookup_eq_of_mem_nodup hnodupO ?_
    rw [← hfst]
    exact (Prod.mk.eta (p := p)) ▸ hp
  have hlookS : alookup settings key = some p.2 := by
    have := hvals p hp (by rw [hfst]; exact hkmem.1)
    rw [← hfst]
    exact this
  simp [hasKey, hlookS, hlookO]

/-- C6: `update_item` on a descriptor whose (filtered) content fields,
children list, and settings fields all equal those stored at the branch head
for that block returns with `unchanged` and leaves the store exactly as it
was: no new structure, no new definition, and `versions[branch]` untouched. -/
theorem update_item_idempotent (db : DB) (pkg br : String) (idx : CourseIndex)
    (head : Nat) (s : Structure) (entry : BlockEntry) (d : Descriptor)
    (did : Nat) (old : Definition) (u : Nat)
    (hloc : d.location.course = { package_id := some pkg, branch := some br, version_guid := none })
    (hidx : get_course_index db pkg = some idx)
    (hhead : alookup idx.versions (some br) = some head)
    (hs : get_structure db head = some s)
    (hentry : get_block_from_structure s d.location.block_id = some entry)
    (hdl : d.definition_locator = DefLocator.defId did)
    (hdef : get_definition db did = some old)
    (hnodupC : ((filter_special_fields d.content_fields).map Prod.fst).Nodup)
    (hfresh : ∀ dd ∈ db.definitions, dd.id < db.nextId)
    (hcontent : ∀ k, alookup (filter_special_fields d.content_fields) k = alookup old.fields k)
    (hchild : d.has_children = true → alookup entry.fields "children" = some (FVal.ids d.children))
    (hnodupE : (entry.fields.map Prod.fst).Nodup)
    (hperm : (d.settings_fields.map Prod.fst).Perm ((entry.fields.map Prod.fst).erase "children"))
    (hvalsS : ∀ p ∈ entry.fields, p.1 ≠ "children" →
      alookup d.settings_fields p.1 = some p.2) :
    update_item db d u false = Except.ok (db, UpdateResult.unchanged) := by
  have hdefrun := (update_definition_spec db did old d.content_fields u hdef hnodupC hfresh).1
    hcontent
  have hsettings := compare_settings_eq_false d.settings_fields entry.fields hnodupE hperm hvalsS
  rw [update_item, hloc]
  rw [lookup_course_resolves hidx hhead hs (Or.inl rfl)]
  simp only [bind, Except.bind, get_index_if_valid_no_guid, hdl, hdefrun, hentry]
  cases hhc : d.has_children with
  | true =>
    simp only [hhc, if_true, hchild hhc, hsettings, pure, Except.pure]
    simp
  | false =>
    simp only [hhc, if_false, hsettings, pure, Except.pure]
    simp

/-- C6 (witness): block `chapter1` of `demoDB` updated with its stored
content (`text = "hi"`), children (`[]`), and settings (`title = "x"`):
`update_item` returns `unchanged` and the store is exactly `demoDB`. -/
theorem update_item_idempotent_witness :
    update_item demoDB
      { location := { course := { package_id := some "p", branch := some "draft"
                                , version_guid := none }
                    , block_id := "chapter1" }
      , definition_locator := DefLocator.defId 8
      , content_fields := [("text", FVal.str "hi")]
      , settings_fields := [("title", FVal.str "x")]
      , has_children := true
      , children := [] } 2 false
      = Except.ok (demoDB, UpdateResult.unchanged) :=
  update_item_idempotent demoDB "p" "draft"
    { id := "p", org := "org", prettyid := "P", edited_by := 1, edited_on := 0
    , versions := [(some "draft", 100)] }
    100 demoStruct
    { category := "chapter", definition := 8
    , fields := [("children", FVal.ids []), ("title", FVal.str "x")]
    , edit_info := { edited_on := 0, edited_by := 1, previous_version := none
                   , update_version := 100 } }
    _ 8
    { id := 8, category := "chapter", fields := [("text", FVal.str "hi")]
    , edit_info := { edited_by := 1, edited_on := 0, previous_version := none
                   , original_version := 8 } }
    2 rfl rfl rfl rfl rfl rfl rfl (by decide) (by decide) (fun k => rfl) (fun _ => rfl)
    (by decide) (by decide) (by decide)

/-- Membership after the filtering/discarding loop of `get_orphans`: an id
survives iff it was there, is in no block's children list, and is not the id
of a detached-category block. -/
theorem orphans_fold_mem (detached : List String) (bs : BlocksMap) (its : List String)
    (hnodup : its.Nodup) (x : String) :
    x ∈ bs.foldl (fun (its : List String) p =>
        let its := its.filter (fun x => ¬ (childrenOrEmpty p.2.fields).contains x)
        if detached.contains p.2.category then its.erase (decode_key_from_mongo p.1)
        else its) its
      ↔ x ∈ its ∧ ∀ p ∈ bs, x ∉ childrenOrEmpty p.2.fields
          ∧ (detached.contains p.2.category = true → x ≠ decode_key_from_mongo p.1) := by
  induction bs generalizing its with
  | nil => simp
  | cons p rest ih =>
    have hndf : (its.filter (fun x => ¬ (childrenOrEmpty p.2.fields).contains x)).Nodup :=
      hnodup.filter _
    rw [List.foldl_cons]
    by_cases hdet : detached.contains p.2.category
    · rw [show (let its' := its.filter (fun x => ¬ (childrenOrEmpty p.2.fields).contains x)
          if detached.contains p.2.category then its'.erase (decode_key_from_mongo p.1)
          else its')
          = (its.filter (fun x => ¬ (childrenOrEmpty p.2.fields).contains x)).erase
              (decode_key_from_mongo p.1) from if_pos hdet]
      rw [ih _ (hndf.erase _), List.Nodup.mem_erase_iff hndf, List.mem_filter]
      constructor
      · rintro ⟨⟨hnd, hmem, hnc⟩, hrest⟩
        refine ⟨hmem, ?_⟩
        intro q hq
        rcases List.mem_cons.mp hq with rfl | hq2
        · exact ⟨by simpa using hnc, fun _ => hnd⟩
        · exact hrest q hq2
      · rintro ⟨hmem, hall⟩
        have hp := hall p (List.mem_cons_self _ _)
        exact ⟨⟨hp.2 hdet, hmem, by simpa using hp.1⟩,
          fun q hq => hall q (List.mem_cons_of_mem _ hq)⟩
    · rw [show (let its' := its.filter (fun x => ¬ (childrenOrEmpty p.2.fields).contains x)
          if detached.contains p.2.category then its'.erase (decode_key_from_mongo p.1)
          else its')
          = its.filter (fun x => ¬ (childrenOrEmpty p.2.fields).contains x) from if_neg hdet]
      rw [ih _ hndf, List.mem_filter]
      constructor
      · rintro ⟨⟨hmem, hnc⟩, hrest⟩
        refine ⟨hmem, ?_⟩
        intro q hq
        rcases List.mem_cons.mp hq with rfl | hq2
        · exact ⟨by simpa using hnc, fun hd => absurd hd (by simpa using hdet)⟩
        · exact hrest q hq2
      · rintro ⟨hmem, hall⟩
        have hp := hall p (List.mem_cons_self _ _)
        exact ⟨⟨hmem, by simpa using hp.1⟩, fun q hq => hall q (List.mem_cons_of_mem _ hq)⟩

/-- C10: `get_orphans` returns exactly the block ids of the branch-head
structure that are not the root, appear in no block's `children` list, and
whose own category is not tagged detached; and (the claim's instance) a
block deleted via `delete_item` without `delete_children` leaves its former
child reported by `get_orphans` on the new head. -/
theorem get_orphans_reports (db : DB) (pkg br : String) (detached : List String)
    (idx : CourseIndex) (head : Nat) (s : Structure)
    (hidx : get_course_index db pkg = some idx)
    (hhead : alookup idx.versions (some br) = some head)
    (hs : get_structure db head = some s)
    (hnodup : (s.blocks.map Prod.fst).Nodup)
    (hroot : s.root ∈ s.blocks.map Prod.fst) :
    (∃ items, get_orphans db pkg br detached = Except.ok items
      ∧ ∀ x, x ∈ items ↔
          (x ∈ s.blocks.map Prod.fst ∧ x ≠ s.root
           ∧ (∀ p ∈ s.blocks, x ∉ childrenOrEmpty p.2.fields)
           ∧ (∀ e, alookup s.blocks x = some e → detached.contains e.category = false)))
    ∧ (∃ db2 loc,
        delete_item c10DB
          { course := { package_id := some "p10", branch := some "draft", version_guid := none }
          , block_id := "chapter1" } 2 false false 10
          = Except.ok (db2, loc)
        ∧ get_orphans db2 "p10" "draft" ["static_tab"] = Except.ok ["para1"]) := by
  constructor
  · have hkeys : s.blocks.map (fun p => decode_key_from_mongo p.1) = s.blocks.map Prod.fst := rfl
    have hcont : (s.blocks.map (fun p => decode_key_from_mongo p.1)).contains s.root = true := by
      rw [hkeys]
      exact List.elem_eq_true_of_mem hroot
    refine ⟨s.blocks.foldl (fun (its : List String) p =>
        let its := its.filter (fun x => ¬ (childrenOrEmpty p.2.fields).contains x)
        if detached.contains p.2.category then its.erase (decode_key_from_mongo p.1)
        else its) ((s.blocks.map (fun p => decode_key_from_mongo p.1)).erase s.root), ?_, ?_⟩
    · rw [get_orphans, lookup_course_resolves hidx hhead hs (Or.inl rfl)]
      simp only [bind, Except.bind, hcont, Bool.not_true, Bool.false_eq_true, if_false,
        pure, Except.pure]
      simp
    · intro x
      rw [orphans_fold_mem detached s.blocks _ ((hkeys ▸ hnodup).erase _) x]
      rw [hkeys, List.Nodup.mem_erase_iff hnodup]
      constructor
      · rintro ⟨⟨hne, hmem⟩, hall⟩
        refine ⟨hmem, hne, fun p hp => (hall p hp).1, ?_⟩
        intro e he
        have hpe : (x, e) ∈ s.blocks := mem_of_alookup he
        have h2 := (hall _ hpe).2
        by_contra hdet
        exact h2 (Bool.not_eq_false _ ▸ hdet) rfl
      · rintro ⟨hmem, hne, hP, hQ⟩
        refine ⟨⟨hne, hmem⟩, ?_⟩
        intro p hp
        refine ⟨hP p hp, ?_⟩
        intro hdet heq
        have hpair : (x, p.2) ∈ s.blocks := by
          have : x = p.1 := heq
          rw [this]
          exact (Prod.mk.eta (p := p)) ▸ hp
        have := hQ p.2 (alookup_eq_of_mem_nodup hnodup hpair)
        rw [hdet] at this
        exact Bool.true_eq_false ▸ this
  · exact ⟨_, _, rfl, rfl⟩

/-- C10 (witness): the characterization applied to the head of `c10DB`. -/
theorem get_orphans_reports_witness :
    ∃ items, get_orphans c10DB "p10" "draft" ["static_tab"] = Except.ok items
      ∧ ∀ x, x ∈ items ↔
          (x ∈ c10Struct.blocks.map Prod.fst ∧ x ≠ c10Struct.root
           ∧ (∀ p ∈ c10Struct.blocks, x ∉ childrenOrEmpty p.2.fields)
           ∧ (∀ e, alookup c10Struct.blocks x = some e →
                (["static_tab"] : List String).contains e.category = false)) :=
  (get_orphans_reports c10DB "p10" "draft" ["static_tab"]
    { id := "p10", org := "org", prettyid := "", edited_by := 1, edited_on := 0
    , versions := [(some "draft", 100)] }
    100 c10Struct rfl rfl rfl (by decide) (by decide)).1

/-- The destination already reflects the source at `x`, `fuel` levels deep:
both carry the block with equal `update_version`, and every non-blacklisted
child of the destination entry reflects the source in turn.  This is the
state `_publish_subdag` leaves behind and the state in which it is the
identity. -/
def deepMatch (src : BlocksMap) (bl : List String) : Nat → BlocksMap → String → Bool
  | 0, _, _ => false
  | fuel + 1, dst, x =>
    match alookup dst (encode_key_for_mongo x), alookup src (encode_key_for_mongo x) with
    | some e, some se =>
      decide (e.edit_info.update_version = se.edit_info.update_version)
      && (childrenOrEmpty e.fields).all (fun c => bl.contains c || deepMatch src bl fuel dst c)
    | _, _ => false

/-- `setUnion` with nothing to add is the identity. -/
theorem setUnion_nil (l : List String) : setUnion l [] = l := rfl

/-- The child loop of `_publish_subdag` is the identity when every
non-blacklisted child already deeply matches. -/
theorem publish_fold_id (u now : Nat) (src : BlocksMap) (bl : List String) (fuel : Nat)
    (ihsub : ∀ (x : String) (dst : BlocksMap), deepMatch src bl fuel dst x = true →
      publish_subdag u now src bl fuel x dst = some (dst, []))
    (children : List String) (dst : BlocksMap) (orph : List String)
    (h : ∀ c ∈ children, bl.contains c = true ∨ deepMatch src bl fuel dst c = true) :
    children.foldl (fun acc child =>
        match acc with
        | none => none
        | some (dblocks, orphans) =>
          if bl.contains child then some (dblocks, orphans)
          else
            match publish_subdag u now src bl fuel child dblocks with
            | none => none
            | some (dblocks, o1) => some (dblocks, setUnion orphans o1))
      (some (dst, orph)) = some (dst, orph) := by
  induction children with
  | nil => rfl
  | cons c rest ih =>
    rw [List.foldl_cons]
    have hstep : (if bl.contains c then some (dst, orph)
        else
          match publish_subdag u now src bl fuel c dst with
          | none => none
          | some (dblocks, o1) => some (dblocks, setUnion orph o1))
        = some (dst, orph) := by
      by_cases hbc : bl.contains c = true
      · rw [if_pos hbc]
      · rcases h c (List.mem_cons_self _ _) with hc | hc
        · exact absurd hc hbc
        · rw [if_neg hbc, ihsub c dst hc]
          show some (dst, setUnion orph []) = some (dst, orph)
          rw [setUnion_nil]
    rw [show (List.foldl (fun acc child =>
        match acc with
        | none => none
        | some (dblocks, orphans) =>
          if bl.contains child then some (dblocks, orphans)
          else
            match publish_subdag u now src bl fuel child dblocks with
            | none => none
            | some (dblocks, o1) => some (dblocks, setUnion orphans o1))
        (match (some (dst, orph) : Option (BlocksMap × List String)) with
          | none => none
          | some (dblocks, orphans) =>
            if bl.contains c then some (dblocks, orphans)
            else
              match publish_subdag u now src bl fuel c dblocks with
              | none => none
              | some (dblocks, o1) => some (dblocks, setUnion orphans o1)) rest)
        = (List.foldl (fun acc child =>
        match acc with
        | none => none
        | some (dblocks, orphans) =>
          if bl.contains child then some (dblocks, orphans)
          else
            match publish_subdag u now src bl fuel child dblocks with
            | none => none
            | some (dblocks, o1) => some (dblocks, setUnion orphans o1))
        (some (dst, orph)) rest) from by rw [show (match (some (dst, orph) : Option (BlocksMap × List String)) with
          | none => none
          | some (dblocks, orphans) =>
            if bl.contains c then some (dblocks, orphans)
            else
              match publish_subdag u now src bl fuel c dblocks with
              | none => none
              | some (dblocks, o1) => some (dblocks, setUnion orphans o1))
          = some (dst, orph) from hstep]]
    exact ih (fun d hd => h d (List.mem_cons_of_mem _ hd))

/-- `_publish_subdag` is the identity (and reports no orphans) on a
destination that already deeply matches the source at the published root. -/
theorem publish_subdag_id (u now : Nat) (src : BlocksMap) (bl : List String) :
    ∀ (fuel : Nat) (x : String) (dst : BlocksMap),
      deepMatch src bl fuel dst x = true →
      publish_subdag u now src bl fuel x dst = some (dst, []) := by
  intro fuel
  induction fuel with
  | zero =>
    intro x dst h
    simp [deepMatch] at h
  | succ f ih =>
    intro x dst h
    rw [deepMatch] at h
    rcases he : alookup dst (encode_key_for_mongo x) with _ | e
    · rw [he] at h; simp at h
    · rcases hse : alookup src (encode_key_for_mongo x) with _ | se
      · rw [he, hse] at h; simp at h
      · rw [he, hse] at h
        rw [Bool.and_eq_true] at h
        have hver : e.edit_info.update_version = se.edit_info.update_version := by
          simpa using h.1
        have hall : ∀ c ∈ childrenOrEmpty e.fields,
            bl.contains c = true ∨ deepMatch src bl f dst c = true := by
          intro c hc
          have h2 := (List.all_eq_true.mp h.2) c hc
          rcases (by simpa using h2 : c ∈ bl ∨ deepMatch src bl f dst c = true) with h1 | h1
          · exact Or.inl (by simpa using h1)
          · exact Or.inr h1
        simp only [publish_subdag, hse, he]
        rw [if_neg (show ¬ e.edit_info.update_version ≠ se.edit_info.update_version from by
          simp [hver])]
        show (match (childrenOrEmpty e.fields).foldl (fun acc child =>
            match acc with
            | none => none
            | some (dblocks, orph) =>
              if bl.contains child then some (dblocks, orph)
              else
                match publish_subdag u now src bl f child dblocks with
                | none => none
                | some (dblocks, o1) => some (dblocks, setUnion orph o1))
            (some (dst, [])) with
          | none => none
          | some (destinationBlocks, orphans) =>
            some (aset destinationBlocks (encode_key_for_mongo x) e, orphans)) = some (dst, [])
        rw [publish_fold_id u now src bl f ih (childrenOrEmpty e.fields) dst [] hall]
        show some (aset dst (encode_key_for_mongo x) e, []) = some (dst, [])
        rw [aset_eq_self he]

/-- The orphan scan of `_sync_children` finds nothing when every destination
child is still a source child. -/
theorem orphans_fold_nil (S D : List String) (h : ∀ c ∈ D, S.contains c = true) :
    D.foldl (fun o child => if S.contains child then o else setAdd o child) [] = [] := by
  induction D with
  | nil => rfl
  | cons c rest ih =>
    rw [List.foldl_cons, if_pos (h c (List.mem_cons_self _ _))]
    exact ih (fun d hd => h d (List.mem_cons_of_mem _ hd))

/-- `_sync_children` is the identity (and returns no orphans) when the
destination children are already a filtered subsequence of the source
children whose filter keeps the published root. -/
theorem sync_children_idem (srcP dstP : BlockEntry) (r : String) (S : List String)
    (q : String → Bool)
    (hS : alookup srcP.fields "children" = some (FVal.ids S))
    (hD : alookup dstP.fields "children" = some (FVal.ids (S.filter q)))
    (hqr : q r = true) :
    sync_children srcP dstP r = Except.ok (dstP, []) := by
  have horph : (S.filter q).foldl
      (fun o child => if S.contains child then o else setAdd o child) [] = [] :=
    orphans_fold_nil S (S.filter q)
      (fun c hc => List.elem_eq_true_of_mem (List.mem_of_mem_filter hc))
  have hreord : S.foldl (fun acc child =>
      if child = r ∨ (S.filter q).contains child then acc ++ [child] else acc) []
      = S.filter q := by
    rw [foldl_append_filter_pred (fun c => c = r ∨ (S.filter q).contains c) S []]
    rw [List.nil_append]
    apply List.filter_congr
    intro c hc
    by_cases hq : q c = true
    · have hmem : c ∈ S.filter q := List.mem_filter.mpr ⟨hc, hq⟩
      simp [hmem, hq]
    · have hcr : c ≠ r := fun hh => hq (by rw [hh]; exact hqr)
      have hnot : c ∉ S.filter q := fun hm => hq (List.mem_filter.mp hm).2
      simp only [Bool.not_eq_true] at hq
      simp [hcr, hnot, hq]
  simp only [sync_children, hS, hD, bind, Except.bind, pure, Except.pure, horph, hreord]
  rw [aset_eq_self hD]

/-- `find?` by a fresh id over an appended singleton finds the singleton. -/
theorem find?_append_fresh {l : List Structure} {s : Structure} {n : Nat}
    (h : ∀ t ∈ l, t.id ≠ n) (hn : s.id = n) :
    (l ++ [s]).find? (fun t => t.id = n) = some s := by
  induction l with
  | nil => simp [List.find?, hn]
  | cons t rest ih =>
    rw [List.cons_append, List.find?_cons_of_neg _ (by simpa using h t (List.mem_cons_self _ _))]
    exact ih (fun d hd => h d (List.mem_cons_of_mem _ hd))

/-- The parent-reconciliation loop of `xblock_publish` is the identity when
each parent's sync is. -/
theorem sync_fold_id (Sb : BlocksMap) (r : String) (parents : List String)
    (Db : BlocksMap) (orph : List String)
    (h : ∀ p ∈ parents, ∃ se e, alookup Sb p = some se ∧ alookup Db p = some e ∧
        sync_children se e r = Except.ok (e, [])) :
    sync_parents Sb r parents (Db, orph) = Except.ok (Db, orph) := by
  induction parents with
  | nil => rfl
  | cons p rest ih =>
    rcases h p (List.mem_cons_self _ _) with ⟨se, e, hse, he, hsy⟩
    have hrec := ih (fun d hd => h d (List.mem_cons_of_mem _ hd))
    have hstep : sync_parents Sb r (p :: rest) (Db, orph)
        = sync_parents Sb r rest (Db, orph) := by
      show ((match alookup Sb p, alookup Db p with
          | some srcParent, some dstParent => do
            let (dstParent, newOrphans) ← sync_children srcParent dstParent r
            pure (aset Db p dstParent, setUnion orph newOrphans)
          | _, _ => (throw SplitError.keyError : Except SplitError (BlocksMap × List String)))
          >>= fun x => sync_parents Sb r rest x)
        = sync_parents Sb r rest (Db, orph)
      simp only [hse, he, hsy, bind, Except.bind, pure, Except.pure]
      rw [aset_eq_self he, setUnion_nil]
    rw [hstep]
    exact hrec

/-- C4 (counterexample): publishing `course` from `src` to `dst` twice with
identical arguments is not a no-op on the second run: the second call
succeeds, inserts one more structure document, and moves the `published`
branch head from 400 to 401, even though the head structure's blocks — the
observable course content — are unchanged. -/
theorem xblock_publish_not_noop :
    xblock_publish c4DB 2 c4SrcLoc c4DstLoc ["course"] [] 10 = Except.ok c4db1
    ∧ xblock_publish c4db1 2 c4SrcLoc c4DstLoc ["course"] [] 10 = Except.ok c4db2
    ∧ (get_course_index c4db1 "dst").map (fun i => alookup i.versions (some "published"))
        = some (some 400)
    ∧ (get_course_index c4db2 "dst").map (fun i => alookup i.versions (some "published"))
        = some (some 401)
    ∧ c4db2.structures.length = c4db1.structures.length + 1
    ∧ (get_structure c4db1 400).map Structure.blocks
        = (get_structure c4db2 401).map Structure.blocks :=
  ⟨rfl, rfl, rfl, rfl, rfl, rfl⟩

/-- C4 (amended): republishing a subtree that the destination branch head
already reflects — the state a successful first `xblock_publish` leaves
behind: the head structure deeply matches the source at the root `r` and
each source parent of `r` holds in the destination a blacklist/ordering
filtered subsequence of its source children that keeps `r` — succeeds and
performs no content change, but it is not a no-op: it always inserts a
fresh structure with the same blocks and advances `versions[branch]` to the
fresh id. -/
theorem xblock_publish_republish (db : DB) (u : Nat) (srcCourse dstCourse : CourseLocator)
    (r : String) (bl : List String) (fuel : Nat)
    (S : Structure) (dpkg : String) (idx : CourseIndex) (D : Structure)
    (hdpkg : dstCourse.package_id = some dpkg)
    (hsrc : lookup_course db srcCourse = Except.ok S)
    (hidx : get_course_index db dpkg = some idx)
    (hbr : alookup idx.versions dstCourse.branch = some D.id)
    (hdst : lookup_course db dstCourse = Except.ok D)
    (hfreshS : ∀ t ∈ db.structures, t.id ≠ db.nextId)
    (hDid : D.id ≠ db.nextId)
    (hdm : deepMatch S.blocks bl fuel D.blocks r = true)
    (hpar : ∀ p ∈ get_parents_from_structure r S, ∃ se e Sp q,
        alookup S.blocks p = some se ∧ alookup D.blocks p = some e
        ∧ alookup se.fields "children" = some (FVal.ids Sp)
        ∧ alookup e.fields "children" = some (FVal.ids (Sp.filter q))
        ∧ q r = true) :
    ∃ db2 idx2 s2,
      xblock_publish db u srcCourse dstCourse [r] bl fuel = Except.ok db2
      ∧ get_course_index db2 dpkg = some idx2
      ∧ alookup idx2.versions dstCourse.branch = some db.nextId
      ∧ db.nextId ≠ D.id
      ∧ get_structure db2 db.nextId = some s2
      ∧ s2.blocks = D.blocks := by
  have hparents : ∀ p ∈ get_parents_from_structure r S, ∃ se e,
      alookup S.blocks p = some se ∧ alookup D.blocks p = some e
      ∧ sync_children se e r = Except.ok (e, []) := by
    intro p hp
    rcases hpar p hp with ⟨se, e, Sp, q, hse, he, hSp, heD, hqr⟩
    exact ⟨se, e, hse, he, sync_children_idem se e r Sp q hSp heD hqr⟩
  have hall : (get_parents_from_structure r S).all
      (fun parent => hasKey D.blocks parent) = true := by
    rw [List.all_eq_true]
    intro p hp
    rcases hparents p hp with ⟨se, e, _, he, _⟩
    simpa using hasKey_of_mem (mem_of_alookup he)
  have hsub := publish_subdag_id u db.now S.blocks bl fuel r D.blocks hdm
  have hsync := sync_fold_id S.blocks r (get_parents_from_structure r S) D.blocks [] hparents
  refine ⟨update_head (insert_structure { db with nextId := db.nextId + 1 }
      { D with id := db.nextId, previous_version := some D.id
             , edited_by := u, edited_on := db.now }) idx dstCourse.branch db.nextId,
    { idx with versions := aset idx.versions dstCourse.branch db.nextId },
    { D with id := db.nextId, previous_version := some D.id
           , edited_by := u, edited_on := db.now }, ?_, ?_, ?_, fun hh => hDid hh.symm, ?_, rfl⟩
  · rw [xblock_publish, hsrc, hdpkg]
    simp only [bind, Except.bind, hidx, versionsLookup, hbr, hdst, version_structure, freshId,
      List.foldlM, hall, not_true, if_false, hsync, hsub, setUnion_nil, pure, Except.pure]
  · exact get_course_index_update hidx rfl
  · exact alookup_aset_self _ _ _
  · exact find?_append_fresh hfreshS rfl

/-- C4 (witness): the amended theorem applied to the store left by the first
publish: the republish succeeds, moves the `published` head of `dst` to the
fresh id 401 ≠ 400, and the new head structure carries the same blocks. -/
theorem xblock_publish_republish_witness :
    ∃ db2 idx2 s2,
      xblock_publish c4db1 2 c4SrcLoc c4DstLoc ["course"] [] 10 = Except.ok db2
      ∧ get_course_index db2 "dst" = some idx2
      ∧ alookup idx2.versions c4DstLoc.branch = some c4db1.nextId
      ∧ c4db1.nextId ≠ c4D.id
      ∧ get_structure db2 c4db1.nextId = some s2
      ∧ s2.blocks = c4D.blocks :=
  xblock_publish_republish c4db1 2 c4SrcLoc c4DstLoc "course" [] 10 c4Src "dst" c4idx1 c4D
    rfl rfl rfl rfl rfl (by decide) (by decide) (by decide)
    (fun p hp => absurd hp (List.not_mem_nil p))

/-- C7 (witness): definition 8 of `demoDB` holds `text = "hi"`; updating it
with the identical payload returns `(8, false)` and leaves the store
untouched, while updating with `text = "bye"` inserts a clone under the
fresh id 200 with `previous_version = 8`. -/
theorem update_definition_spec_witness :
    update_definition_from_data demoDB (DefLocator.defId 8) [("text", FVal.str "hi")] 2
      = Except.ok (demoDB, 8, false)
    ∧ ∃ newDef : Definition,
        update_definition_from_data demoDB (DefLocator.defId 8) [("text", FVal.str "bye")] 2
          = Except.ok (insert_definition { demoDB with nextId := 201 } newDef, 200, true)
        ∧ newDef.edit_info.previous_version = some 8 :=
  ⟨(update_definition_spec demoDB 8
      { id := 8, category := "chapter", fields := [("text", FVal.str "hi")]
      , edit_info := { edited_by := 1, edited_on := 0, previous_version := none
                     , original_version := 8 } }
      [("text", FVal.str "hi")] 2 rfl (by decide) (by decide)).1 (fun k => rfl)
  , by
      rcases (update_definition_spec demoDB 8
        { id := 8, category := "chapter", fields := [("text", FVal.str "hi")]
        , edit_info := { edited_by := 1, edited_on := 0, previous_version := none
                       , original_version := 8 } }
        [("text", FVal.str "bye")] 2 rfl (by decide) (by decide)).2
        (fun h => absurd (h "text") (by decide)) with ⟨nd, h1, _, _, h4, _⟩
      exact ⟨nd, h1, h4⟩⟩

end Split
